import Mathlib

/-!
# Verification of `bakins/dictionary`

A shallow embedding of the two chain-maintenance variants of the
`dictionary` Go package, together with proofs of its specified
properties.

* The *hash-gated* variant stores each item with its cached 32-bit hash
  and scans chains with `v.hash == h && key.Equal(v.key)`.
* The *sorted* variant keeps each chain sorted by a three-way
  `Compare` and stops a scan early when the probe key compares `-1`
  (less) against the current node.

Modelling conventions:

* Go `uint32` values are carried as `Nat`.  The only arithmetic the
  code performs on them is equality and `%`, which agree with the `Nat`
  operations on values below `2^32`, and nothing here produces a value
  that must wrap.
* A chain (`container/list` doubly linked list) is modelled as a
  `List` of items in front-to-back order: `PushFront` is cons,
  `PushBack` is append at the tail, `InsertBefore`/`Remove` act at the
  located position.  The `sync.Pool` of the sorted file only recycles
  allocations and has no observable behaviour, so it is not modelled.
* Go panics (the `h % d.numBuckets` reduction and bucket indexing when
  `numBuckets = 0`) are modelled by returning `none`: every public
  operation that can hit the reduction returns an `Option`.
* The Go `interface{}` nil for values is modelled by a distinguished
  element `vnil` of the value type; `Get`/`Delete` return it on a miss
  exactly as the Go code returns `nil`.
-/

set_option autoImplicit false

namespace Bakins

variable {K V E : Type}

/-- One operation of the public mutating/reading API, used to describe
sequences of calls against a dictionary. -/
inductive Op (K V : Type) where
  | set (k : K) (v : V)
  | get (k : K)
  | del (k : K)

/-! ## Hash-gated variant (`Hash`/`Equal`, cached hash in each item) -/

namespace HashGated

/-- An entry of a chain: key, its cached hash, and the value. -/
structure Item (K V : Type) where
  key : K
  hash : Nat
  value : V
deriving DecidableEq

/-- The dictionary: a bucket count and one chain per bucket. -/
structure Dictionary (K V : Type) where
  numBuckets : Nat
  buckets : List (List (Item K V))
deriving DecidableEq

variable (Hash : K → Nat) (Equal : K → K → Bool) (vnil : V)

/-- `SetBuckets` option: overrides the bucket count before allocation. -/
def SetBuckets (n : Nat) : Dictionary K V → Dictionary K V :=
  fun d => { d with numBuckets := n }

/-- `New`: applies the options to the default configuration
(31 buckets), then allocates that many empty chains. -/
def New (options : List (Dictionary K V → Dictionary K V)) : Dictionary K V :=
  let d := options.foldl (fun d f => f d) { numBuckets := 31, buckets := [] }
  { d with buckets := List.replicate d.numBuckets [] }

/-- The scan condition of `Set` and `getElement`:
`v.hash == h && key.Equal(v.key)`. -/
def matchKey (h : Nat) (k : K) (x : Item K V) : Bool :=
  x.hash == h && Equal k x.key

/-- The replacing scan of `Set`: `some` of the updated chain if a node
matched (its value replaced in place by the new item), `none` if the
scan fell off the end of the chain. -/
def replaceInChain (h : Nat) (k : K) (v : V) :
    List (Item K V) → Option (List (Item K V))
  | [] => none
  | x :: xs =>
    if matchKey Equal h k x then some (⟨k, h, v⟩ :: xs)
    else (replaceInChain h k v xs).map (fun ys => x :: ys)

/-- The whole effect of `Set` on the selected chain: replace in place on
a match, otherwise `PushFront` (which also covers the empty-bucket
quick exit). -/
def setChain (h : Nat) (k : K) (v : V) (b : List (Item K V)) : List (Item K V) :=
  match replaceInChain Equal h k v b with
  | some b2 => b2
  | none => ⟨k, h, v⟩ :: b

/-- `getBucket`: hash the key and reduce modulo the bucket count.
`none` models the Go panic when `numBuckets = 0` (division by zero,
and the bucket array is empty). -/
def getBucket (d : Dictionary K V) (k : K) : Option (Nat × List (Item K V)) :=
  let h := Hash k
  match d.buckets[h % d.numBuckets]? with
  | some b => some (h, b)
  | none => none

/-- `Set`: route to the bucket, then `setChain` there. -/
def Set (d : Dictionary K V) (k : K) (v : V) : Option (Dictionary K V) :=
  let h := Hash k
  let n := h % d.numBuckets
  match d.buckets[n]? with
  | none => none
  | some b => some { d with buckets := d.buckets.set n (setChain Equal h k v b) }

/-- The lookup scan of `getElement`: first node whose cached hash and
key match. -/
def findInChain (h : Nat) (k : K) : List (Item K V) → Option (Item K V)
  | [] => none
  | x :: xs => if matchKey Equal h k x then some x else findInChain h k xs

/-- `getElement`: `none` is the `numBuckets = 0` panic, `some none` the
not-found `(nil, nil)` result. -/
def getElement (d : Dictionary K V) (k : K) : Option (Option (Item K V)) :=
  match getBucket Hash d k with
  | none => none
  | some (h, b) => some (findInChain Equal h k b)

/-- `Get`: the found item's value with `true`, or `(nil, false)`. -/
def Get (d : Dictionary K V) (k : K) : Option (V × Bool) :=
  match getElement Hash Equal d k with
  | none => none
  | some none => some (vnil, false)
  | some (some x) => some (x.value, true)

/-- `bucket.Remove(e)` for the element `getElement` located: drop the
first matching node. -/
def removeFirst (h : Nat) (k : K) : List (Item K V) → List (Item K V)
  | [] => []
  | x :: xs => if matchKey Equal h k x then xs else x :: removeFirst h k xs

/-- `Delete`: returns `(value, found)` and the dictionary after the
unlink (unchanged when not found). -/
def Delete (d : Dictionary K V) (k : K) : Option (V × Bool × Dictionary K V) :=
  let h := Hash k
  let n := h % d.numBuckets
  match d.buckets[n]? with
  | none => none
  | some b =>
    match findInChain Equal h k b with
    | none => some (vnil, false, d)
    | some x =>
      some (x.value, true,
        { d with buckets := d.buckets.set n (removeFirst Equal h k b) })

/-- The inner loop of `Each` over one chain: first non-nil error stops
the iteration. -/
def eachChain (f : K → V → Option E) : List (Item K V) → Option E
  | [] => none
  | x :: xs =>
    match f x.key x.value with
    | some err => some err
    | none => eachChain f xs

/-- The outer loop of `Each` over the buckets in index order. -/
def eachBuckets (f : K → V → Option E) : List (List (Item K V)) → Option E
  | [] => none
  | b :: bs =>
    match eachChain f b with
    | some err => some err
    | none => eachBuckets f bs

/-- `Each`: visit every entry, bucket 0..N-1, chain front-to-back. -/
def Each (d : Dictionary K V) (f : K → V → Option E) : Option E :=
  eachBuckets f d.buckets

/-- `Keys`: the Go code preallocates an array of the summed chain
lengths and writes every key in iteration order at the next index;
writing at a strictly advancing index is appending, so the result is
the in-order append of all chain keys. -/
def Keys (d : Dictionary K V) : List K :=
  d.buckets.foldl (fun acc b => b.foldl (fun a x => a ++ [x.key]) acc) []

/-- One `Op` applied to a dictionary (`get` reads only). -/
def runOp (d : Dictionary K V) : Op K V → Option (Dictionary K V)
  | .set k v => Set Hash Equal d k v
  | .get _ => some d
  | .del k => (Delete Hash Equal vnil d k).map (fun r => r.2.2)

/-- A sequence of operations applied left to right. -/
def run (d : Dictionary K V) : List (Op K V) → Option (Dictionary K V)
  | [] => some d
  | op :: ops =>
    match runOp Hash Equal vnil d op with
    | none => none
    | some d2 => run d2 ops

/-- Structural well-formedness `New` establishes: the bucket array has
exactly `numBuckets` chains and the count is positive. -/
def WF (d : Dictionary K V) : Prop :=
  d.buckets.length = d.numBuckets ∧ 0 < d.numBuckets

end HashGated

/-- The key contract of the hash-gated variant, as the package
documents it: `Equal` is an equivalence relation and equal keys hash
identically. -/
structure LawfulEqual (Hash : K → Nat) (Equal : K → K → Bool) : Prop where
  refl : ∀ a, Equal a a = true
  symm : ∀ a b, Equal a b = true → Equal b a = true
  trans : ∀ a b c, Equal a b = true → Equal b c = true → Equal a c = true
  hash_congr : ∀ a b, Equal a b = true → Hash a = Hash b

/-! ## Sorted variant (`Hash`/`Compare`, chains kept sorted) -/

namespace Sorted

/-- An entry of a chain: key and value (no cached hash in this file). -/
structure Item (K V : Type) where
  key : K
  value : V
deriving DecidableEq

/-- The dictionary: a bucket count and one chain per bucket. -/
structure Dictionary (K V : Type) where
  numBuckets : Nat
  buckets : List (List (Item K V))
deriving DecidableEq

variable (Hash : K → Nat) (Compare : K → K → Int) (vnil : V)

/-- `SetBuckets` option: overrides the bucket count before allocation. -/
def SetBuckets (n : Nat) : Dictionary K V → Dictionary K V :=
  fun d => { d with numBuckets := n }

/-- `New`: applies the options to the default configuration
(31 buckets), then allocates that many empty chains. -/
def New (options : List (Dictionary K V → Dictionary K V)) : Dictionary K V :=
  let d := options.foldl (fun d f => f d) { numBuckets := 31, buckets := [] }
  { d with buckets := List.replicate d.numBuckets [] }

/-- The insertion scan of `Set`: walk the chain; on `-1` insert before
the current node, on `0` replace the node in place, otherwise continue;
falling off the end is `PushBack` (the empty-bucket quick exit is the
same cons). -/
def setChain (k : K) (v : V) : List (Item K V) → List (Item K V)
  | [] => [⟨k, v⟩]
  | x :: xs =>
    if Compare k x.key = -1 then ⟨k, v⟩ :: x :: xs
    else if Compare k x.key = 0 then ⟨k, v⟩ :: xs
    else x :: setChain k v xs

/-- `getBucket`: reduce the hash modulo the bucket count; `none`
models the `numBuckets = 0` panic. -/
def getBucket (d : Dictionary K V) (k : K) : Option (List (Item K V)) :=
  d.buckets[Hash k % d.numBuckets]?

/-- `Set`: route to the bucket, then `setChain` there. -/
def Set (d : Dictionary K V) (k : K) (v : V) : Option (Dictionary K V) :=
  let n := Hash k % d.numBuckets
  match d.buckets[n]? with
  | none => none
  | some b => some { d with buckets := d.buckets.set n (setChain Compare k v b) }

/-- The lookup scan of `getElement`: `0` finds the node, `-1` stops the
scan early (the key cannot appear further down a sorted chain),
anything else continues. -/
def findInChain (k : K) : List (Item K V) → Option (Item K V)
  | [] => none
  | x :: xs =>
    if Compare k x.key = 0 then some x
    else if Compare k x.key = -1 then none
    else findInChain k xs

/-- `getElement`: `none` is the `numBuckets = 0` panic, `some none` the
not-found result. -/
def getElement (d : Dictionary K V) (k : K) : Option (Option (Item K V)) :=
  match getBucket Hash d k with
  | none => none
  | some b => some (findInChain Compare k b)

/-- `Get`: the found item's value with `true`, or `(nil, false)`. -/
def Get (d : Dictionary K V) (k : K) : Option (V × Bool) :=
  match getElement Hash Compare d k with
  | none => none
  | some none => some (vnil, false)
  | some (some x) => some (x.value, true)

/-- `bucket.Remove(e)` for the element `getElement` located: drop the
node the lookup scan stops at (no change if the scan exits early). -/
def removeFirst (k : K) : List (Item K V) → List (Item K V)
  | [] => []
  | x :: xs =>
    if Compare k x.key = 0 then xs
    else if Compare k x.key = -1 then x :: xs
    else x :: removeFirst k xs

/-- `Delete`: returns `(value, found)` and the dictionary after the
unlink (unchanged when not found). -/
def Delete (d : Dictionary K V) (k : K) : Option (V × Bool × Dictionary K V) :=
  let n := Hash k % d.numBuckets
  match d.buckets[n]? with
  | none => none
  | some b =>
    match findInChain Compare k b with
    | none => some (vnil, false, d)
    | some x =>
      some (x.value, true,
        { d with buckets := d.buckets.set n (removeFirst Compare k b) })

/-- The inner loop of `Each` over one chain. -/
def eachChain (f : K → V → Option E) : List (Item K V) → Option E
  | [] => none
  | x :: xs =>
    match f x.key x.value with
    | some err => some err
    | none => eachChain f xs

/-- The outer loop of `Each` over the buckets in index order. -/
def eachBuckets (f : K → V → Option E) : List (List (Item K V)) → Option E
  | [] => none
  | b :: bs =>
    match eachChain f b with
    | some err => some err
    | none => eachBuckets f bs

/-- `Each`: visit every entry, bucket 0..N-1, chain front-to-back. -/
def Each (d : Dictionary K V) (f : K → V → Option E) : Option E :=
  eachBuckets f d.buckets

/-- `Keys`: in-order append of all chain keys (see the hash-gated
variant for why the preallocate-and-index write is an append). -/
def Keys (d : Dictionary K V) : List K :=
  d.buckets.foldl (fun acc b => b.foldl (fun a x => a ++ [x.key]) acc) []

/-- One `Op` applied to a dictionary (`get` reads only). -/
def runOp (d : Dictionary K V) : Op K V → Option (Dictionary K V)
  | .set k v => Set Hash Compare d k v
  | .get _ => some d
  | .del k => (Delete Hash Compare vnil d k).map (fun r => r.2.2)

/-- A sequence of operations applied left to right. -/
def run (d : Dictionary K V) : List (Op K V) → Option (Dictionary K V)
  | [] => some d
  | op :: ops =>
    match runOp Hash Compare vnil d op with
    | none => none
    | some d2 => run d2 ops

/-- Structural well-formedness `New` establishes. -/
def WF (d : Dictionary K V) : Prop :=
  d.buckets.length = d.numBuckets ∧ 0 < d.numBuckets

end Sorted

/-- The key contract of the sorted variant: `Compare` is a three-way
total order (values in `{-1, 0, 1}`, antisymmetric, with transitive
strict order and `0` a congruence) that agrees with `Hash`. -/
structure LawfulCompare (Hash : K → Nat) (Compare : K → K → Int) : Prop where
  refl : ∀ a, Compare a a = 0
  range : ∀ a b, Compare a b = -1 ∨ Compare a b = 0 ∨ Compare a b = 1
  neg : ∀ a b, Compare a b = -(Compare b a)
  lt_trans : ∀ a b c, Compare a b = -1 → Compare b c = -1 → Compare a c = -1
  congr_left : ∀ a b c, Compare a b = 0 → Compare a c = Compare b c
  hash_congr : ∀ a b, Compare a b = 0 → Hash a = Hash b

/-- Replacing one chain of a bucket array by an equally long chain
keeps the total entry count. -/
theorem sum_map_length_set {A : Type} (bs : List (List A)) (n : Nat)
    (c b : List A) (hb : bs[n]? = some b) (hlen : c.length = b.length) :
    ((bs.set n c).map List.length).sum = (bs.map List.length).sum := by
  induction bs generalizing n with
  | nil => simp at hb
  | cons x xs ih =>
    cases n with
    | zero =>
      simp only [List.getElem?_cons_zero, Option.some_inj] at hb
      subst hb
      simp [hlen]
    | succ m =>
      simp only [List.getElem?_cons_succ] at hb
      show (List.map List.length (x :: xs.set m c)).sum = _
      rw [List.map_cons, List.sum_cons, ih m hb, List.map_cons, List.sum_cons]

/-- Replacing one chain by a chain one entry shorter drops the total
entry count by one. -/
theorem sum_map_length_set_lt {A : Type} (bs : List (List A)) (n : Nat)
    (c b : List A) (hb : bs[n]? = some b) (hlen : c.length + 1 = b.length) :
    ((bs.set n c).map List.length).sum + 1 = (bs.map List.length).sum := by
  induction bs generalizing n with
  | nil => simp at hb
  | cons x xs ih =>
    cases n with
    | zero =>
      simp only [List.getElem?_cons_zero, Option.some_inj] at hb
      subst hb
      simp only [List.set_cons_zero, List.map_cons, List.sum_cons]
      omega
    | succ m =>
      simp only [List.getElem?_cons_succ] at hb
      have h2 := ih m hb
      show (List.map List.length (x :: xs.set m c)).sum + 1 = _
      simp only [List.map_cons, List.sum_cons]
      omega

/-- Replacing one chain by a chain one entry longer raises the total
entry count by one. -/
theorem sum_map_length_set_gt {A : Type} (bs : List (List A)) (n : Nat)
    (c b : List A) (hb : bs[n]? = some b) (hlen : c.length = b.length + 1) :
    ((bs.set n c).map List.length).sum = (bs.map List.length).sum + 1 := by
  induction bs generalizing n with
  | nil => simp at hb
  | cons x xs ih =>
    cases n with
    | zero =>
      simp only [List.getElem?_cons_zero, Option.some_inj] at hb
      subst hb
      simp only [List.set_cons_zero, List.map_cons, List.sum_cons]
      omega
    | succ m =>
      simp only [List.getElem?_cons_succ] at hb
      have h2 := ih m hb
      show (List.map List.length (x :: xs.set m c)).sum = _
      simp only [List.map_cons, List.sum_cons]
      omega

/-! ## Chain-level lemmas: hash-gated variant -/

section HashGatedChains

open HashGated

variable (Hash : K → Nat) (Equal : K → K → Bool)

theorem hg_findInChain_eq_none {h : Nat} {k : K} {b : List (Item K V)}
    (hb : ∀ x ∈ b, matchKey Equal h k x = false) :
    findInChain Equal h k b = none := by
  induction b with
  | nil => rfl
  | cons x xs ih =>
    rw [findInChain, if_neg (by simp [hb x (List.mem_cons_self x xs)])]
    exact ih fun y hy => hb y (List.mem_cons_of_mem _ hy)

theorem hg_replaceInChain_eq_none {h : Nat} {k : K} {v : V} {b : List (Item K V)} :
    replaceInChain Equal h k v b = none ↔ ∀ x ∈ b, matchKey Equal h k x = false := by
  induction b with
  | nil => simp [replaceInChain]
  | cons x xs ih =>
    by_cases hx : matchKey Equal h k x = true
    · simp [replaceInChain, hx]
    · have hx' : matchKey Equal h k x = false := Bool.eq_false_iff.mpr hx
      simp only [replaceInChain, if_neg hx, Option.map_eq_none', ih,
        List.mem_cons]
      constructor
      · rintro hall y (rfl | hy)
        · exact hx'
        · exact hall y hy
      · intro hall y hy
        exact hall y (Or.inr hy)

theorem hg_replaceInChain_length {h : Nat} {k : K} {v : V}
    {b b2 : List (Item K V)}
    (hb : replaceInChain Equal h k v b = some b2) : b2.length = b.length := by
  induction b generalizing b2 with
  | nil => simp [replaceInChain] at hb
  | cons x xs ih =>
    rw [replaceInChain] at hb
    split at hb
    · cases hb
      simp
    · cases hr : replaceInChain Equal h k v xs with
      | none => rw [hr] at hb; simp at hb
      | some ys =>
        rw [hr] at hb
        simp only [Option.map_some', Option.some_inj] at hb
        subst hb
        simp [ih hr]

theorem hg_replaceInChain_isSome_of_find {h : Nat} {k : K} {v : V}
    {b : List (Item K V)} {x : Item K V}
    (hf : findInChain Equal h k b = some x) :
    ∃ b2, replaceInChain Equal h k v b = some b2 := by
  induction b with
  | nil => simp [findInChain] at hf
  | cons y ys ih =>
    rw [findInChain] at hf
    rw [replaceInChain]
    split
    · exact ⟨_, rfl⟩
    · rename_i hy
      rw [if_neg hy] at hf
      obtain ⟨b2, hb2⟩ := ih hf
      exact ⟨y :: b2, by rw [hb2]; rfl⟩

theorem hg_setChain_length_of_found {h : Nat} {k : K} {v : V}
    {b : List (Item K V)} {x : Item K V}
    (hf : findInChain Equal h k b = some x) :
    (setChain Equal h k v b).length = b.length := by
  obtain ⟨b2, hb2⟩ := hg_replaceInChain_isSome_of_find Equal hf (v := v)
  rw [setChain, hb2]
  exact hg_replaceInChain_length Equal hb2

theorem hg_setChain_length_of_absent {h : Nat} {k : K} {v : V}
    {b : List (Item K V)}
    (hf : findInChain Equal h k b = none) :
    (setChain Equal h k v b).length = b.length + 1 := by
  have hall : ∀ x ∈ b, matchKey Equal h k x = false := by
    induction b with
    | nil => simp
    | cons y ys ih =>
      rw [findInChain] at hf
      split at hf
      · cases hf
      · rename_i hy
        intro x hx
        rcases List.mem_cons.mp hx with rfl | hx
        · exact Bool.eq_false_iff.mpr hy
        · exact ih hf x hx
  rw [setChain, (hg_replaceInChain_eq_none Equal).mpr hall]
  simp

theorem hg_find_replace {h : Nat} {k : K} {v : V} {b b2 : List (Item K V)}
    (hrefl : Equal k k = true)
    (hb : replaceInChain Equal h k v b = some b2) :
    findInChain Equal h k b2 = some ⟨k, h, v⟩ := by
  have hmatch : matchKey Equal h k (⟨k, h, v⟩ : Item K V) = true := by
    simp [matchKey, hrefl]
  induction b generalizing b2 with
  | nil => simp [replaceInChain] at hb
  | cons x xs ih =>
    rw [replaceInChain] at hb
    split at hb
    · cases hb
      rw [findInChain, if_pos hmatch]
    · rename_i hx
      cases hr : replaceInChain Equal h k v xs with
      | none => rw [hr] at hb; simp at hb
      | some ys =>
        rw [hr] at hb
        simp only [Option.map_some', Option.some_inj] at hb
        subst hb
        rw [findInChain, if_neg hx]
        exact ih hr

theorem hg_find_setChain_self {h : Nat} {k : K} {v : V} {b : List (Item K V)}
    (hrefl : Equal k k = true) :
    findInChain Equal h k (setChain Equal h k v b) =
      some ⟨k, h, v⟩ := by
  have hmatch : matchKey Equal h k (⟨k, h, v⟩ : Item K V) = true := by
    simp [matchKey, hrefl]
  cases hr : replaceInChain Equal h k v b with
  | none =>
    simp only [setChain, hr]
    rw [findInChain, if_pos hmatch]
  | some b2 =>
    simp only [setChain, hr]
    exact hg_find_replace Equal hrefl hr

theorem hg_matchKey_congr (LE : LawfulEqual Hash Equal) {k2 k : K}
    (hk2 : Equal k2 k = true) (x : Item K V) :
    matchKey Equal (Hash k2) k2 x = matchKey Equal (Hash k) k x := by
  have hh : Hash k2 = Hash k := LE.hash_congr k2 k hk2
  have he : Equal k2 x.key = Equal k x.key := by
    cases h2 : Equal k2 x.key with
    | true =>
      have h1 : Equal k x.key = true :=
        LE.trans k k2 x.key (LE.symm k2 k hk2) h2
      rw [h1]
    | false =>
      cases h1 : Equal k x.key with
      | true =>
        have : Equal k2 x.key = true := LE.trans k2 k x.key hk2 h1
        rw [h2] at this
        cases this
      | false => rfl
  rw [matchKey, matchKey, hh, he]

theorem hg_find_congr {h2 h : Nat} {k2 k : K}
    (hcond : ∀ x : Item K V, matchKey Equal h2 k2 x = matchKey Equal h k x) :
    ∀ b : List (Item K V),
      findInChain Equal h2 k2 b = findInChain Equal h k b := by
  intro b
  induction b with
  | nil => rfl
  | cons x xs ih => simp only [findInChain, hcond, ih]

theorem hg_remove_congr {h2 h : Nat} {k2 k : K}
    (hcond : ∀ x : Item K V, matchKey Equal h2 k2 x = matchKey Equal h k x) :
    ∀ b : List (Item K V),
      removeFirst Equal h2 k2 b = removeFirst Equal h k b := by
  intro b
  induction b with
  | nil => rfl
  | cons x xs ih => simp only [removeFirst, hcond, ih]

theorem hg_no_cross_match (LE : LawfulEqual Hash Equal) {k2 k : K}
    (hk2 : Equal k2 k = false) {h h2 : Nat} {x : Item K V}
    (hx : matchKey Equal h k x = true) :
    matchKey Equal h2 k2 x = false := by
  have hkx : Equal k x.key = true := by
    rw [matchKey, Bool.and_eq_true] at hx
    exact hx.2
  cases h2x : Equal k2 x.key with
  | false => simp [matchKey, h2x]
  | true =>
    have : Equal k2 k = true := LE.trans _ _ _ h2x (LE.symm _ _ hkx)
    rw [hk2] at this
    cases this

theorem hg_find_replace_other (LE : LawfulEqual Hash Equal)
    {h h2 : Nat} {k2 k : K} {v : V} (hk2 : Equal k2 k = false)
    {b b2 : List (Item K V)}
    (hb : replaceInChain Equal h k v b = some b2) :
    findInChain Equal h2 k2 b2 = findInChain Equal h2 k2 b := by
  have hnew : matchKey Equal h2 k2 (⟨k, h, v⟩ : Item K V) = false := by
    simp [matchKey, hk2]
  induction b generalizing b2 with
  | nil => simp [replaceInChain] at hb
  | cons x xs ih =>
    rw [replaceInChain] at hb
    split at hb
    · rename_i hx
      cases hb
      rw [findInChain, if_neg (by simp [hnew]),
        findInChain, if_neg (by simp [hg_no_cross_match Hash Equal LE hk2 hx])]
    · rename_i hx
      cases hr : replaceInChain Equal h k v xs with
      | none => rw [hr] at hb; simp at hb
      | some ys =>
        rw [hr] at hb
        simp only [Option.map_some', Option.some_inj] at hb
        subst hb
        rw [findInChain, findInChain, ih hr]

theorem hg_find_setChain_other (LE : LawfulEqual Hash Equal)
    {h h2 : Nat} {k2 k : K} {v : V} (hk2 : Equal k2 k = false)
    (b : List (Item K V)) :
    findInChain Equal h2 k2 (setChain Equal h k v b) =
      findInChain Equal h2 k2 b := by
  have hnew : matchKey Equal h2 k2 (⟨k, h, v⟩ : Item K V) = false := by
    simp [matchKey, hk2]
  cases hr : replaceInChain Equal h k v b with
  | none =>
    simp only [setChain, hr]
    rw [findInChain, if_neg (by simp [hnew])]
  | some b2 =>
    simp only [setChain, hr]
    exact hg_find_replace_other Hash Equal LE hk2 hr

theorem hg_find_removeFirst_other (LE : LawfulEqual Hash Equal)
    {h h2 : Nat} {k2 k : K} (hk2 : Equal k2 k = false) :
    ∀ b : List (Item K V),
      findInChain Equal h2 k2 (removeFirst Equal h k b) =
        findInChain Equal h2 k2 b := by
  intro b
  induction b with
  | nil => rfl
  | cons x xs ih =>
    rw [removeFirst]
    split
    · rename_i hx
      rw [findInChain, if_neg (by simp [hg_no_cross_match Hash Equal LE hk2 hx])]
    · rw [findInChain, findInChain, ih]

theorem hg_removeFirst_sublist {h : Nat} {k : K} :
    ∀ b : List (Item K V), (removeFirst Equal h k b).Sublist b := by
  intro b
  induction b with
  | nil => exact List.Sublist.refl []
  | cons x xs ih =>
    rw [removeFirst]
    split
    · exact List.sublist_cons_of_sublist x (List.Sublist.refl xs)
    · exact List.Sublist.cons₂ x ih

theorem hg_removeFirst_length {h : Nat} {k : K} {b : List (Item K V)}
    {x : Item K V} (hf : findInChain Equal h k b = some x) :
    (removeFirst Equal h k b).length + 1 = b.length := by
  induction b with
  | nil => simp [findInChain] at hf
  | cons y ys ih =>
    rw [findInChain] at hf
    rw [removeFirst]
    split
    · simp
    · rename_i hy
      rw [if_neg hy] at hf
      simp [ih hf]

theorem hg_find_removeFirst_self (LE : LawfulEqual Hash Equal)
    {h : Nat} {k : K} {b : List (Item K V)} {x : Item K V}
    (hp : b.Pairwise fun a c => Equal a.key c.key = false)
    (hf : findInChain Equal h k b = some x) :
    findInChain Equal h k (removeFirst Equal h k b) = none := by
  induction b with
  | nil => simp [findInChain] at hf
  | cons y ys ih =>
    rw [findInChain] at hf
    rw [removeFirst]
    split
    · rename_i hy
      have hky : Equal k y.key = true := by
        rw [matchKey, Bool.and_eq_true] at hy
        exact hy.2
      apply hg_findInChain_eq_none
      intro z hz
      cases hkz : Equal k z.key with
      | false => simp [matchKey, hkz]
      | true =>
        have hyz : Equal y.key z.key = true :=
          LE.trans _ _ _ (LE.symm _ _ hky) hkz
        have := (List.pairwise_cons.mp hp).1 z hz
        rw [this] at hyz
        cases hyz
    · rename_i hy
      rw [if_neg hy] at hf
      rw [findInChain, if_neg hy]
      exact ih (List.pairwise_cons.mp hp).2 hf

theorem hg_replaceInChain_mem {h : Nat} {k : K} {v : V}
    {b b2 : List (Item K V)} {y : Item K V}
    (hb : replaceInChain Equal h k v b = some b2) (hy : y ∈ b2) :
    y = ⟨k, h, v⟩ ∨ y ∈ b := by
  induction b generalizing b2 with
  | nil => simp [replaceInChain] at hb
  | cons x xs ih =>
    rw [replaceInChain] at hb
    split at hb
    · cases hb
      rcases List.mem_cons.mp hy with rfl | hy2
      · exact Or.inl rfl
      · exact Or.inr (List.mem_cons_of_mem _ hy2)
    · cases hr : replaceInChain Equal h k v xs with
      | none => rw [hr] at hb; simp at hb
      | some ys =>
        rw [hr] at hb
        simp only [Option.map_some', Option.some_inj] at hb
        subst hb
        rcases List.mem_cons.mp hy with rfl | hy2
        · exact Or.inr (List.mem_cons_self _ _)
        · rcases ih hr hy2 with h1 | h1
          · exact Or.inl h1
          · exact Or.inr (List.mem_cons_of_mem _ h1)

theorem hg_setChain_mem {h : Nat} {k : K} {v : V}
    {b : List (Item K V)} {y : Item K V}
    (hy : y ∈ setChain Equal h k v b) :
    y = ⟨k, h, v⟩ ∨ y ∈ b := by
  cases hr : replaceInChain Equal h k v b with
  | none =>
    rw [setChain, hr] at hy
    rcases List.mem_cons.mp hy with rfl | hy2
    · exact Or.inl rfl
    · exact Or.inr hy2
  | some b2 =>
    rw [setChain, hr] at hy
    exact hg_replaceInChain_mem Equal hr hy

theorem hg_key_eq_false_of_no_match (LE : LawfulEqual Hash Equal)
    {k : K} {y : Item K V} (hyh : y.hash = Hash y.key)
    (hy : matchKey Equal (Hash k) k y = false) :
    Equal k y.key = false := by
  cases hky : Equal k y.key with
  | false => rfl
  | true =>
    have hh : Hash k = Hash y.key := LE.hash_congr _ _ hky
    rw [matchKey, hyh, ← hh] at hy
    simp [hky] at hy

theorem hg_replace_pairwise (LE : LawfulEqual Hash Equal)
    {k : K} {v : V} {b b2 : List (Item K V)}
    (hhash : ∀ x ∈ b, x.hash = Hash x.key)
    (hb : replaceInChain Equal (Hash k) k v b = some b2)
    (hp : b.Pairwise fun a c => Equal a.key c.key = false) :
    b2.Pairwise fun a c => Equal a.key c.key = false := by
  induction b generalizing b2 with
  | nil => simp [replaceInChain] at hb
  | cons x xs ih =>
    rw [replaceInChain] at hb
    obtain ⟨hhead, htail⟩ := List.pairwise_cons.mp hp
    split at hb
    · rename_i hx
      cases hb
      refine List.pairwise_cons.mpr ⟨?_, htail⟩
      intro y hy
      have hkx : Equal k x.key = true := by
        rw [matchKey, Bool.and_eq_true] at hx
        exact hx.2
      cases hky : Equal k y.key with
      | false => rfl
      | true =>
        have : Equal x.key y.key = true :=
          LE.trans _ _ _ (LE.symm _ _ hkx) hky
        rw [hhead y hy] at this
        cases this
    · rename_i hx
      cases hr : replaceInChain Equal (Hash k) k v xs with
      | none => rw [hr] at hb; simp at hb
      | some ys =>
        rw [hr] at hb
        simp only [Option.map_some', Option.some_inj] at hb
        subst hb
        refine List.pairwise_cons.mpr ⟨?_, ?_⟩
        · intro y hy
          rcases hg_replaceInChain_mem Equal hr hy with rfl | hy2
          · cases hxk : Equal x.key k with
            | false => rfl
            | true =>
              have hkx : Equal k x.key = true := LE.symm _ _ hxk
              have hxh : x.hash = Hash x.key :=
                hhash x (List.mem_cons_self _ _)
              have : matchKey Equal (Hash k) k x = true := by
                rw [matchKey, hxh, LE.hash_congr _ _ hkx]
                simp [hkx]
              exact absurd this hx
          · exact hhead y hy2
        · exact ih (fun y hy => hhash y (List.mem_cons_of_mem _ hy)) hr htail

theorem hg_setChain_pairwise (LE : LawfulEqual Hash Equal)
    {k : K} {v : V} {b : List (Item K V)}
    (hhash : ∀ x ∈ b, x.hash = Hash x.key)
    (hp : b.Pairwise fun a c => Equal a.key c.key = false) :
    (setChain Equal (Hash k) k v b).Pairwise
      fun a c => Equal a.key c.key = false := by
  cases hr : replaceInChain Equal (Hash k) k v b with
  | none =>
    simp only [setChain, hr]
    refine List.pairwise_cons.mpr ⟨?_, hp⟩
    intro y hy
    have hall := (hg_replaceInChain_eq_none Equal).mp hr
    exact hg_key_eq_false_of_no_match Hash Equal LE (hhash y hy) (hall y hy)
  | some b2 =>
    simp only [setChain, hr]
    exact hg_replace_pairwise Hash Equal LE hhash hr hp

theorem hg_setChain_hashOK {k : K} {v : V} {b : List (Item K V)}
    (hhash : ∀ x ∈ b, x.hash = Hash x.key) :
    ∀ y ∈ setChain Equal (Hash k) k v b, y.hash = Hash y.key := by
  intro y hy
  rcases hg_setChain_mem Equal hy with rfl | hy2
  · rfl
  · exact hhash y hy2

theorem hg_countP_le_one (LE : LawfulEqual Hash Equal)
    {k : K} {b : List (Item K V)}
    (hp : b.Pairwise fun a c => Equal a.key c.key = false) :
    b.countP (fun x => Equal k x.key) ≤ 1 := by
  induction b with
  | nil => simp
  | cons x xs ih =>
    obtain ⟨hhead, htail⟩ := List.pairwise_cons.mp hp
    cases hkx : Equal k x.key with
    | false =>
      rw [List.countP_cons_of_neg _ _ (by simp [hkx])]
      exact ih htail
    | true =>
      rw [List.countP_cons_of_pos _ _ (by simp [hkx])]
      have hzero : xs.countP (fun x => Equal k x.key) = 0 := by
        rw [List.countP_eq_zero]
        intro y hy
        simp only [Bool.not_eq_true]
        cases hky : Equal k y.key with
        | false => rfl
        | true =>
          have : Equal x.key y.key = true :=
            LE.trans _ _ _ (LE.symm _ _ hkx) hky
          rw [hhead y hy] at this
          cases this
      omega
  
theorem hg_eachChain_append (f : K → V → Option E)
    (l1 l2 : List (Item K V)) :
    eachChain f (l1 ++ l2) =
      match eachChain f l1 with
      | some err => some err
      | none => eachChain f l2 := by
  induction l1 with
  | nil => rfl
  | cons x xs ih =>
    rw [List.cons_append, eachChain, eachChain]
    cases f x.key x.value with
    | none => exact ih
    | some err => rfl

theorem hg_eachBuckets_eq_flatten (f : K → V → Option E)
    (bs : List (List (Item K V))) :
    eachBuckets f bs = eachChain f bs.flatten := by
  induction bs with
  | nil => rfl
  | cons b bs ih =>
    rw [eachBuckets, List.flatten_cons, hg_eachChain_append, ih]

theorem hg_eachChain_of_all_none (f : K → V → Option E)
    {l : List (Item K V)} (h : ∀ x ∈ l, f x.key x.value = none) :
    eachChain f l = none := by
  induction l with
  | nil => rfl
  | cons x xs ih =>
    rw [eachChain, h x (List.mem_cons_self _ _)]
    exact ih fun y hy => h y (List.mem_cons_of_mem _ hy)

theorem hg_eachChain_abort (f : K → V → Option E)
    {pre post : List (Item K V)} {x : Item K V} {err : E}
    (hpre : ∀ y ∈ pre, f y.key y.value = none)
    (hx : f x.key x.value = some err) :
    eachChain f (pre ++ x :: post) = some err := by
  induction pre with
  | nil => rw [List.nil_append, eachChain, hx]
  | cons y ys ih =>
    rw [List.cons_append, eachChain, hpre y (List.mem_cons_self _ _)]
    exact ih fun z hz => hpre z (List.mem_cons_of_mem _ hz)

theorem hg_keysChain_foldl (b : List (Item K V)) (acc : List K) :
    b.foldl (fun a x => a ++ [x.key]) acc = acc ++ b.map Item.key := by
  induction b generalizing acc with
  | nil => simp
  | cons x xs ih => simp [ih]

theorem hg_keys_foldl (bs : List (List (Item K V))) (acc : List K) :
    bs.foldl (fun acc b => b.foldl (fun a x => a ++ [x.key]) acc) acc
      = acc ++ bs.flatten.map Item.key := by
  induction bs generalizing acc with
  | nil => simp
  | cons b bs ih =>
    rw [List.foldl_cons, hg_keysChain_foldl, ih, List.flatten_cons,
      List.map_append, List.append_assoc]

theorem hg_Keys_eq (d : Dictionary K V) :
    Keys d = d.buckets.flatten.map Item.key := by
  rw [Keys]
  simpa using hg_keys_foldl d.buckets []

theorem hg_Keys_length (d : Dictionary K V) :
    (Keys d).length = (d.buckets.map List.length).sum := by
  rw [hg_Keys_eq, List.length_map, List.length_flatten]

end HashGatedChains

/-! ## Dictionary-level lemmas: hash-gated variant -/

section HashGatedDict

open HashGated

variable (Hash : K → Nat) (Equal : K → K → Bool) (vnil : V)

/-- The internal invariant every reachable hash-gated dictionary
satisfies: cached hashes are the keys' hashes, every item sits in the
chain its hash selects, and no chain holds two `Equal`-related keys. -/
def HGInv (d : Dictionary K V) : Prop :=
  ∀ i b, d.buckets[i]? = some b →
    (∀ x ∈ b, x.hash = Hash x.key ∧ Hash x.key % d.numBuckets = i) ∧
    b.Pairwise fun a c => Equal a.key c.key = false

theorem hg_New_setBuckets (n : Nat) :
    (New [SetBuckets n] : Dictionary K V) =
      ⟨n, List.replicate n []⟩ := rfl

theorem hg_WF_New {n : Nat} (hn : 0 < n) :
    WF (New [SetBuckets n] : Dictionary K V) := by
  rw [hg_New_setBuckets]
  exact ⟨by simp, hn⟩

theorem hg_HGInv_New (n : Nat) :
    HGInv Hash Equal (New [SetBuckets n] : Dictionary K V) := by
  rw [hg_New_setBuckets]
  intro i b hb
  simp only [List.getElem?_replicate] at hb
  split at hb
  · cases hb
    exact ⟨by simp, List.Pairwise.nil⟩
  · cases hb

theorem hg_getBucket_WF {d : Dictionary K V} (hwf : WF d) (k : K) :
    ∃ b, d.buckets[Hash k % d.numBuckets]? = some b := by
  have hlt : Hash k % d.numBuckets < d.buckets.length := by
    rw [hwf.1]
    exact Nat.mod_lt _ hwf.2
  exact ⟨_, List.getElem?_eq_getElem hlt⟩

theorem hg_Set_eq {d : Dictionary K V} {k : K} {v : V} {b : List (Item K V)}
    (hb : d.buckets[Hash k % d.numBuckets]? = some b) :
    Set Hash Equal d k v = some
      { d with buckets := (d.buckets.set (Hash k % d.numBuckets) (setChain Equal (Hash k) k v b)) } := by
  simp only [HashGated.Set, hb]

theorem hg_Delete_miss {d : Dictionary K V} {k : K} {b : List (Item K V)}
    (hb : d.buckets[Hash k % d.numBuckets]? = some b)
    (hf : findInChain Equal (Hash k) k b = none) :
    Delete Hash Equal vnil d k = some (vnil, false, d) := by
  simp only [Delete, hb, hf]

theorem hg_Delete_hit {d : Dictionary K V} {k : K} {b : List (Item K V)}
    {x : Item K V}
    (hb : d.buckets[Hash k % d.numBuckets]? = some b)
    (hf : findInChain Equal (Hash k) k b = some x) :
    Delete Hash Equal vnil d k = some (x.value, true,
      { d with buckets := (d.buckets.set (Hash k % d.numBuckets) (removeFirst Equal (Hash k) k b)) }) := by
  simp only [Delete, hb, hf]

theorem hg_Get_miss {d : Dictionary K V} {k : K} {b : List (Item K V)}
    (hb : d.buckets[Hash k % d.numBuckets]? = some b)
    (hf : findInChain Equal (Hash k) k b = none) :
    Get Hash Equal vnil d k = some (vnil, false) := by
  simp only [Get, getElement, getBucket, hb, hf]

theorem hg_Get_hit {d : Dictionary K V} {k : K} {b : List (Item K V)}
    {x : Item K V}
    (hb : d.buckets[Hash k % d.numBuckets]? = some b)
    (hf : findInChain Equal (Hash k) k b = some x) :
    Get Hash Equal vnil d k = some (x.value, true) := by
  simp only [Get, getElement, getBucket, hb, hf]

theorem hg_Set_some_of_WF {d : Dictionary K V} (hwf : WF d) (k : K) (v : V) :
    ∃ d2, Set Hash Equal d k v = some d2 := by
  obtain ⟨b, hb⟩ := hg_getBucket_WF Hash hwf k
  exact ⟨_, hg_Set_eq Hash Equal hb⟩

theorem hg_Get_some_of_WF {d : Dictionary K V} (hwf : WF d) (k : K) :
    ∃ r, Get Hash Equal vnil d k = some r := by
  obtain ⟨b, hb⟩ := hg_getBucket_WF Hash hwf k
  cases hf : findInChain Equal (Hash k) k b with
  | none => exact ⟨_, hg_Get_miss Hash Equal vnil hb hf⟩
  | some x => exact ⟨_, hg_Get_hit Hash Equal vnil hb hf⟩

theorem hg_Delete_some_of_WF {d : Dictionary K V} (hwf : WF d) (k : K) :
    ∃ r, Delete Hash Equal vnil d k = some r := by
  obtain ⟨b, hb⟩ := hg_getBucket_WF Hash hwf k
  cases hf : findInChain Equal (Hash k) k b with
  | none => exact ⟨_, hg_Delete_miss Hash Equal vnil hb hf⟩
  | some x => exact ⟨_, hg_Delete_hit Hash Equal vnil hb hf⟩

theorem hg_Set_shape {d d2 : Dictionary K V} {k : K} {v : V}
    (hs : Set Hash Equal d k v = some d2) :
    ∃ b, d.buckets[Hash k % d.numBuckets]? = some b ∧
      d2 = { d with buckets := (d.buckets.set (Hash k % d.numBuckets) (setChain Equal (Hash k) k v b)) } := by
  cases hb : d.buckets[Hash k % d.numBuckets]? with
  | none =>
    rw [HashGated.Set] at hs
    simp only [hb] at hs
    exact Option.noConfusion hs
  | some b =>
    rw [hg_Set_eq Hash Equal hb] at hs
    cases hs
    exact ⟨b, rfl, rfl⟩

theorem hg_WF_Set {d d2 : Dictionary K V} {k : K} {v : V} (hwf : WF d)
    (hs : Set Hash Equal d k v = some d2) : WF d2 := by
  obtain ⟨b, hb, rfl⟩ := hg_Set_shape Hash Equal hs
  exact ⟨by simpa using hwf.1, hwf.2⟩

theorem hg_WF_Delete {d : Dictionary K V} {k : K} {r : V × Bool × Dictionary K V}
    (hwf : WF d) (hdel : Delete Hash Equal vnil d k = some r) : WF r.2.2 := by
  cases hb : d.buckets[Hash k % d.numBuckets]? with
  | none =>
    rw [Delete] at hdel
    simp only [hb] at hdel
    exact Option.noConfusion hdel
  | some b =>
    cases hf : findInChain Equal (Hash k) k b with
    | none =>
      rw [hg_Delete_miss Hash Equal vnil hb hf] at hdel
      cases hdel
      exact hwf
    | some x =>
      rw [hg_Delete_hit Hash Equal vnil hb hf] at hdel
      cases hdel
      exact ⟨by simpa using hwf.1, hwf.2⟩

theorem hg_Get_congr_bucket {d d2 : Dictionary K V} {k : K}
    (hnum : d2.numBuckets = d.numBuckets)
    (heq : d2.buckets[Hash k % d.numBuckets]? =
      d.buckets[Hash k % d.numBuckets]?) :
    Get Hash Equal vnil d2 k = Get Hash Equal vnil d k := by
  rw [Get, Get, getElement, getElement, getBucket, getBucket, hnum, heq]

theorem hg_Get_Set_self {k : K} {v : V} {d d2 : Dictionary K V}
    (hrefl : Equal k k = true)
    (hs : HashGated.Set Hash Equal d k v = some d2) :
    Get Hash Equal vnil d2 k = some (v, true) := by
  obtain ⟨b, hb, rfl⟩ := hg_Set_shape Hash Equal hs
  have hb2 : (d.buckets.set (Hash k % d.numBuckets)
      (setChain Equal (Hash k) k v b))[Hash k % d.numBuckets]? =
      some (setChain Equal (Hash k) k v b) := by
    rw [List.getElem?_set_self', hb]
    rfl
  exact hg_Get_hit Hash Equal vnil hb2 (hg_find_setChain_self Equal hrefl)

theorem hg_Get_Set_equiv (LE : LawfulEqual Hash Equal) {k2 k : K} {v : V}
    {d d2 : Dictionary K V} (hk2 : Equal k2 k = true)
    (hs : HashGated.Set Hash Equal d k v = some d2) :
    Get Hash Equal vnil d2 k2 = some (v, true) := by
  have hh : Hash k2 = Hash k := LE.hash_congr _ _ hk2
  obtain ⟨b, hb, rfl⟩ := hg_Set_shape Hash Equal hs
  have hb2 : (d.buckets.set (Hash k % d.numBuckets)
      (setChain Equal (Hash k) k v b))[Hash k2 % d.numBuckets]? =
      some (setChain Equal (Hash k) k v b) := by
    rw [hh, List.getElem?_set_self', hb]
    rfl
  have hfind : findInChain Equal (Hash k2) k2
      (setChain Equal (Hash k) k v b) = some ⟨k, Hash k, v⟩ := by
    rw [hg_find_congr Equal (hg_matchKey_congr Hash Equal LE hk2)]
    exact hg_find_setChain_self Equal (LE.refl k)
  exact hg_Get_hit Hash Equal vnil hb2 hfind

theorem hg_Get_Set_other (LE : LawfulEqual Hash Equal) {k2 k : K} {v : V}
    {d d2 : Dictionary K V} (hk2 : Equal k2 k = false)
    (hs : HashGated.Set Hash Equal d k v = some d2) :
    Get Hash Equal vnil d2 k2 = Get Hash Equal vnil d k2 := by
  obtain ⟨b, hb, rfl⟩ := hg_Set_shape Hash Equal hs
  by_cases hidx : Hash k2 % d.numBuckets = Hash k % d.numBuckets
  · have hb2 : (d.buckets.set (Hash k % d.numBuckets)
        (setChain Equal (Hash k) k v b))[Hash k2 % d.numBuckets]? =
        some (setChain Equal (Hash k) k v b) := by
      rw [hidx, List.getElem?_set_self', hb]
      rfl
    have hbk2 : d.buckets[Hash k2 % d.numBuckets]? = some b := by
      rw [hidx]
      exact hb
    have hfind := @hg_find_setChain_other K V Hash Equal LE
      (Hash k) (Hash k2) k2 k v hk2 b
    cases hf : findInChain Equal (Hash k2) k2 b with
    | none =>
      rw [hg_Get_miss Hash Equal vnil hb2 (by rw [hfind]; exact hf),
        hg_Get_miss Hash Equal vnil hbk2 hf]
    | some x =>
      rw [hg_Get_hit Hash Equal vnil hb2 (by rw [hfind]; exact hf),
        hg_Get_hit Hash Equal vnil hbk2 hf]
  · exact hg_Get_congr_bucket Hash Equal vnil rfl
      (List.getElem?_set_ne fun h => hidx h.symm)

theorem hg_Get_Delete_equiv (LE : LawfulEqual Hash Equal) {k2 k : K}
    {d : Dictionary K V} {r : V × Bool × Dictionary K V}
    (hinv : HGInv Hash Equal d) (hk2 : Equal k2 k = true)
    (hdel : Delete Hash Equal vnil d k = some r) :
    Get Hash Equal vnil r.2.2 k2 = some (vnil, false) := by
  have hh : Hash k2 = Hash k := LE.hash_congr _ _ hk2
  have hcond := hg_matchKey_congr Hash Equal LE hk2 (V := V)
  cases hb : d.buckets[Hash k % d.numBuckets]? with
  | none =>
    rw [Delete] at hdel
    simp only [hb] at hdel
    exact Option.noConfusion hdel
  | some b =>
    cases hf : findInChain Equal (Hash k) k b with
    | none =>
      rw [hg_Delete_miss Hash Equal vnil hb hf] at hdel
      cases hdel
      have hbk2 : d.buckets[Hash k2 % d.numBuckets]? = some b := by
        rw [hh]
        exact hb
      exact hg_Get_miss Hash Equal vnil hbk2
        (by rw [hg_find_congr Equal hcond]; exact hf)
    | some x =>
      rw [hg_Delete_hit Hash Equal vnil hb hf] at hdel
      cases hdel
      have hb2 : (d.buckets.set (Hash k % d.numBuckets)
          (removeFirst Equal (Hash k) k b))[Hash k2 % d.numBuckets]? =
          some (removeFirst Equal (Hash k) k b) := by
        rw [hh, List.getElem?_set_self', hb]
        rfl
      have hnone : findInChain Equal (Hash k) k
          (removeFirst Equal (Hash k) k b) = none :=
        hg_find_removeFirst_self Hash Equal LE (hinv _ _ hb).2 hf
      exact hg_Get_miss Hash Equal vnil hb2
        (by rw [hg_find_congr Equal hcond]; exact hnone)

theorem hg_Get_Delete_other (LE : LawfulEqual Hash Equal) {k2 k : K}
    {d : Dictionary K V} {r : V × Bool × Dictionary K V}
    (hk2 : Equal k2 k = false)
    (hdel : Delete Hash Equal vnil d k = some r) :
    Get Hash Equal vnil r.2.2 k2 = Get Hash Equal vnil d k2 := by
  cases hb : d.buckets[Hash k % d.numBuckets]? with
  | none =>
    rw [Delete] at hdel
    simp only [hb] at hdel
    exact Option.noConfusion hdel
  | some b =>
    cases hf : findInChain Equal (Hash k) k b with
    | none =>
      rw [hg_Delete_miss Hash Equal vnil hb hf] at hdel
      cases hdel
      rfl
    | some x =>
      rw [hg_Delete_hit Hash Equal vnil hb hf] at hdel
      cases hdel
      by_cases hidx : Hash k2 % d.numBuckets = Hash k % d.numBuckets
      · have hb2 : (d.buckets.set (Hash k % d.numBuckets)
            (removeFirst Equal (Hash k) k b))[Hash k2 % d.numBuckets]? =
            some (removeFirst Equal (Hash k) k b) := by
          rw [hidx, List.getElem?_set_self', hb]
          rfl
        have hbk2 : d.buckets[Hash k2 % d.numBuckets]? = some b := by
          rw [hidx]
          exact hb
        have hfind := @hg_find_removeFirst_other K V Hash Equal LE
          (Hash k) (Hash k2) k2 k hk2 b
        cases hf2 : findInChain Equal (Hash k2) k2 b with
        | none =>
          rw [hg_Get_miss Hash Equal vnil hb2 (by rw [hfind]; exact hf2),
            hg_Get_miss Hash Equal vnil hbk2 hf2]
        | some y =>
          rw [hg_Get_hit Hash Equal vnil hb2 (by rw [hfind]; exact hf2),
            hg_Get_hit Hash Equal vnil hbk2 hf2]
      · exact hg_Get_congr_bucket Hash Equal vnil rfl
          (List.getElem?_set_ne fun h => hidx h.symm)

theorem hg_HGInv_Set (LE : LawfulEqual Hash Equal) {d d2 : Dictionary K V}
    {k : K} {v : V} (hinv : HGInv Hash Equal d)
    (hs : HashGated.Set Hash Equal d k v = some d2) :
    HGInv Hash Equal d2 := by
  obtain ⟨b, hb, rfl⟩ := hg_Set_shape Hash Equal hs
  intro i c hc
  by_cases hidx : i = Hash k % d.numBuckets
  · subst hidx
    rw [List.getElem?_set_self', hb] at hc
    simp only [Option.map_eq_map, Option.map_some', Function.const_apply,
      Option.some_inj] at hc
    subst hc
    refine ⟨?_, hg_setChain_pairwise Hash Equal LE
      (fun x hx => ((hinv _ _ hb).1 x hx).1) (hinv _ _ hb).2⟩
    intro x hx
    rcases hg_setChain_mem Equal hx with rfl | hx2
    · exact ⟨rfl, rfl⟩
    · exact (hinv _ _ hb).1 x hx2
  · rw [List.getElem?_set_ne fun h => hidx h.symm] at hc
    exact hinv i c hc

theorem hg_HGInv_Delete {d : Dictionary K V} {k : K}
    {r : V × Bool × Dictionary K V} (hinv : HGInv Hash Equal d)
    (hdel : Delete Hash Equal vnil d k = some r) :
    HGInv Hash Equal r.2.2 := by
  cases hb : d.buckets[Hash k % d.numBuckets]? with
  | none =>
    rw [Delete] at hdel
    simp only [hb] at hdel
    exact Option.noConfusion hdel
  | some b =>
    cases hf : findInChain Equal (Hash k) k b with
    | none =>
      rw [hg_Delete_miss Hash Equal vnil hb hf] at hdel
      cases hdel
      exact hinv
    | some x =>
      rw [hg_Delete_hit Hash Equal vnil hb hf] at hdel
      cases hdel
      intro i c hc
      by_cases hidx : i = Hash k % d.numBuckets
      · subst hidx
        rw [List.getElem?_set_self', hb] at hc
        simp only [Option.map_eq_map, Option.map_some', Function.const_apply,
          Option.some_inj] at hc
        subst hc
        have hsub := hg_removeFirst_sublist Equal (h := Hash k) (k := k) b
        refine ⟨fun y hy => (hinv _ _ hb).1 y (hsub.subset hy),
          (hinv _ _ hb).2.sublist hsub⟩
      · rw [List.getElem?_set_ne fun h => hidx h.symm] at hc
        exact hinv i c hc

theorem hg_Get_New {n : Nat} (hn : 0 < n) (k : K) :
    Get Hash Equal vnil (New [SetBuckets n] : Dictionary K V) k =
      some (vnil, false) := by
  have hb : (New [SetBuckets n] : Dictionary K V).buckets[Hash k %
      (New [SetBuckets n] : Dictionary K V).numBuckets]? = some [] := by
    rw [hg_New_setBuckets]
    simp [List.getElem?_replicate, Nat.mod_lt _ hn]
  exact hg_Get_miss Hash Equal vnil hb rfl

theorem hg_run_preserves (LE : LawfulEqual Hash Equal) :
    ∀ (ops : List (Op K V)) (d : Dictionary K V), WF d →
      HGInv Hash Equal d →
      ∃ d2, run Hash Equal vnil d ops = some d2 ∧ WF d2 ∧
        HGInv Hash Equal d2 := by
  intro ops
  induction ops with
  | nil => exact fun d hwf hinv => ⟨d, rfl, hwf, hinv⟩
  | cons op ops ih =>
    intro d hwf hinv
    cases op with
    | get k =>
      obtain ⟨d2, hr, hwf2, hinv2⟩ := ih d hwf hinv
      exact ⟨d2, by rw [run, runOp]; exact hr, hwf2, hinv2⟩
    | set k v =>
      obtain ⟨d1, hs⟩ := hg_Set_some_of_WF Hash Equal hwf k v
      obtain ⟨d2, hr, hwf2, hinv2⟩ := ih d1 (hg_WF_Set Hash Equal hwf hs)
        (hg_HGInv_Set Hash Equal LE hinv hs)
      refine ⟨d2, ?_, hwf2, hinv2⟩
      rw [run, runOp, hs]
      exact hr
    | del k =>
      obtain ⟨r, hdel⟩ := hg_Delete_some_of_WF Hash Equal vnil hwf k
      obtain ⟨d2, hr, hwf2, hinv2⟩ := ih r.2.2
        (hg_WF_Delete Hash Equal vnil hwf hdel)
        (hg_HGInv_Delete Hash Equal vnil hinv hdel)
      refine ⟨d2, ?_, hwf2, hinv2⟩
      rw [run, runOp, hdel]
      exact hr

theorem hg_bisim (LE : LawfulEqual Hash Equal) :
    ∀ (ops : List (Op K V)) (d1 d2 : Dictionary K V),
      WF d1 → WF d2 → HGInv Hash Equal d1 → HGInv Hash Equal d2 →
      (∀ k, Get Hash Equal vnil d1 k = Get Hash Equal vnil d2 k) →
      ∀ e1 e2, run Hash Equal vnil d1 ops = some e1 →
        run Hash Equal vnil d2 ops = some e2 →
        ∀ k, Get Hash Equal vnil e1 k = Get Hash Equal vnil e2 k := by
  intro ops
  induction ops with
  | nil =>
    intro d1 d2 _ _ _ _ hGet e1 e2 hr1 hr2 k
    cases hr1
    cases hr2
    exact hGet k
  | cons op ops ih =>
    intro d1 d2 hwf1 hwf2 hinv1 hinv2 hGet e1 e2 hr1 hr2 k
    cases op with
    | get k0 =>
      rw [run, runOp] at hr1 hr2
      exact ih d1 d2 hwf1 hwf2 hinv1 hinv2 hGet e1 e2 hr1 hr2 k
    | set k0 v0 =>
      obtain ⟨d1x, hs1⟩ := hg_Set_some_of_WF Hash Equal hwf1 k0 v0
      obtain ⟨d2x, hs2⟩ := hg_Set_some_of_WF Hash Equal hwf2 k0 v0
      rw [run, runOp, hs1] at hr1
      rw [run, runOp, hs2] at hr2
      refine ih d1x d2x (hg_WF_Set Hash Equal hwf1 hs1)
        (hg_WF_Set Hash Equal hwf2 hs2)
        (hg_HGInv_Set Hash Equal LE hinv1 hs1)
        (hg_HGInv_Set Hash Equal LE hinv2 hs2)
        ?_ e1 e2 hr1 hr2 k
      intro k2
      cases hk2 : Equal k2 k0 with
      | true =>
        rw [hg_Get_Set_equiv Hash Equal vnil LE hk2 hs1,
          hg_Get_Set_equiv Hash Equal vnil LE hk2 hs2]
      | false =>
        rw [hg_Get_Set_other Hash Equal vnil LE hk2 hs1,
          hg_Get_Set_other Hash Equal vnil LE hk2 hs2]
        exact hGet k2
    | del k0 =>
      obtain ⟨r1, hdel1⟩ := hg_Delete_some_of_WF Hash Equal vnil hwf1 k0
      obtain ⟨r2, hdel2⟩ := hg_Delete_some_of_WF Hash Equal vnil hwf2 k0
      rw [run, runOp, hdel1] at hr1
      rw [run, runOp, hdel2] at hr2
      simp only [Option.map_some'] at hr1 hr2
      refine ih r1.2.2 r2.2.2 (hg_WF_Delete Hash Equal vnil hwf1 hdel1)
        (hg_WF_Delete Hash Equal vnil hwf2 hdel2)
        (hg_HGInv_Delete Hash Equal vnil hinv1 hdel1)
        (hg_HGInv_Delete Hash Equal vnil hinv2 hdel2)
        ?_ e1 e2 hr1 hr2 k
      intro k2
      cases hk2 : Equal k2 k0 with
      | true =>
        rw [hg_Get_Delete_equiv Hash Equal vnil LE hinv1 hk2 hdel1,
          hg_Get_Delete_equiv Hash Equal vnil LE hinv2 hk2 hdel2]
      | false =>
        rw [hg_Get_Delete_other Hash Equal vnil LE hk2 hdel1,
          hg_Get_Delete_other Hash Equal vnil LE hk2 hdel2]
        exact hGet k2

end HashGatedDict

/-! ## Chain-level lemmas: sorted variant -/

section SortedChains

open Sorted

variable (Hash : K → Nat) (Compare : K → K → Int)

theorem lc_eq_symm (LC : LawfulCompare Hash Compare) {a b : K}
    (h : Compare a b = 0) : Compare b a = 0 := by
  have hn := LC.neg b a
  rw [h] at hn
  simpa using hn

theorem lc_congr_right (LC : LawfulCompare Hash Compare) {a b : K} (c : K)
    (h : Compare a b = 0) : Compare c a = Compare c b := by
  have h1 := LC.neg c a
  have h2 := LC.neg c b
  rw [LC.congr_left a b c h] at h1
  omega

theorem lc_flip (LC : LawfulCompare Hash Compare) {a b : K}
    (h : Compare a b = 1) : Compare b a = -1 := by
  have hn := LC.neg a b
  omega

theorem lc_gt_of_ne (LC : LawfulCompare Hash Compare) {a b : K}
    (h0 : Compare a b ≠ 0) (h1 : Compare a b ≠ -1) : Compare a b = 1 := by
  rcases LC.range a b with h | h | h
  · exact absurd h h1
  · exact absurd h h0
  · exact h

theorem so_find_eq_none_of_all {k : K} {b : List (Item K V)}
    (hb : ∀ x ∈ b, Compare k x.key ≠ 0) :
    findInChain Compare k b = none := by
  induction b with
  | nil => rfl
  | cons x xs ih =>
    rw [findInChain, if_neg (hb x (List.mem_cons_self _ _))]
    by_cases h1 : Compare k x.key = -1
    · rw [if_pos h1]
    · rw [if_neg h1]
      exact ih fun y hy => hb y (List.mem_cons_of_mem _ hy)

theorem so_find_setChain_self {k : K} {v : V} {b : List (Item K V)}
    (hrefl : Compare k k = 0) :
    findInChain Compare k (setChain Compare k v b) = some ⟨k, v⟩ := by
  induction b with
  | nil =>
    rw [setChain, findInChain, if_pos hrefl]
  | cons x xs ih =>
    rw [setChain]
    by_cases h1 : Compare k x.key = -1
    · rw [if_pos h1, findInChain, if_pos hrefl]
    · rw [if_neg h1]
      by_cases h0 : Compare k x.key = 0
      · rw [if_pos h0, findInChain, if_pos hrefl]
      · rw [if_neg h0, findInChain, if_neg h0, if_neg h1]
        exact ih

theorem so_setChain_length_found {k : K} {v : V} {b : List (Item K V)}
    {x : Item K V} (hf : findInChain Compare k b = some x) :
    (setChain Compare k v b).length = b.length := by
  induction b with
  | nil => simp [findInChain] at hf
  | cons y ys ih =>
    rw [findInChain] at hf
    rw [setChain]
    by_cases h0 : Compare k y.key = 0
    · rw [if_neg (by rw [h0]; decide), if_pos h0]
      simp
    · rw [if_neg h0] at hf
      by_cases h1 : Compare k y.key = -1
      · rw [if_pos h1] at hf
        exact Option.noConfusion hf
      · rw [if_neg h1] at hf
        rw [if_neg h1, if_neg h0]
        simp [ih hf]

theorem so_setChain_length_absent {k : K} {v : V} {b : List (Item K V)}
    (hf : findInChain Compare k b = none) :
    (setChain Compare k v b).length = b.length + 1 := by
  induction b with
  | nil => rfl
  | cons y ys ih =>
    rw [findInChain] at hf
    rw [setChain]
    by_cases h0 : Compare k y.key = 0
    · rw [if_pos h0] at hf
      exact Option.noConfusion hf
    · rw [if_neg h0] at hf
      by_cases h1 : Compare k y.key = -1
      · rw [if_pos h1]
        simp
      · rw [if_neg h1] at hf
        rw [if_neg h1, if_neg h0]
        simp [ih hf]

theorem so_setChain_mem {k : K} {v : V} {b : List (Item K V)} {y : Item K V}
    (hy : y ∈ setChain Compare k v b) : y = ⟨k, v⟩ ∨ y ∈ b := by
  induction b with
  | nil =>
    rw [setChain] at hy
    rcases List.mem_singleton.mp hy with rfl
    exact Or.inl rfl
  | cons x xs ih =>
    rw [setChain] at hy
    by_cases h1 : Compare k x.key = -1
    · rw [if_pos h1] at hy
      rcases List.mem_cons.mp hy with rfl | hy2
      · exact Or.inl rfl
      · exact Or.inr hy2
    · rw [if_neg h1] at hy
      by_cases h0 : Compare k x.key = 0
      · rw [if_pos h0] at hy
        rcases List.mem_cons.mp hy with rfl | hy2
        · exact Or.inl rfl
        · exact Or.inr (List.mem_cons_of_mem _ hy2)
      · rw [if_neg h0] at hy
        rcases List.mem_cons.mp hy with rfl | hy2
        · exact Or.inr (List.mem_cons_self _ _)
        · rcases ih hy2 with h | h
          · exact Or.inl h
          · exact Or.inr (List.mem_cons_of_mem _ h)

theorem so_setChain_sorted (LC : LawfulCompare Hash Compare)
    {k : K} {v : V} {b : List (Item K V)}
    (hs : b.Pairwise fun x y => Compare x.key y.key = -1) :
    (setChain Compare k v b).Pairwise
      fun x y => Compare x.key y.key = -1 := by
  induction b with
  | nil => simp [setChain]
  | cons x xs ih =>
    obtain ⟨hhead, htail⟩ := List.pairwise_cons.mp hs
    rw [setChain]
    by_cases h1 : Compare k x.key = -1
    · rw [if_pos h1]
      refine List.pairwise_cons.mpr ⟨?_, hs⟩
      intro y hy
      rcases List.mem_cons.mp hy with rfl | hy2
      · exact h1
      · exact LC.lt_trans _ _ _ h1 (hhead y hy2)
    · rw [if_neg h1]
      by_cases h0 : Compare k x.key = 0
      · rw [if_pos h0]
        refine List.pairwise_cons.mpr ⟨?_, htail⟩
        intro y hy
        rw [LC.congr_left k x.key y.key h0]
        exact hhead y hy
      · rw [if_neg h0]
        refine List.pairwise_cons.mpr ⟨?_, ih htail⟩
        intro y hy
        rcases so_setChain_mem Compare hy with rfl | hy2
        · exact lc_flip Hash Compare LC (lc_gt_of_ne Hash Compare LC h0 h1)
        · exact hhead y hy2

theorem so_removeFirst_sublist {k : K} :
    ∀ b : List (Item K V), (removeFirst Compare k b).Sublist b := by
  intro b
  induction b with
  | nil => exact List.Sublist.refl []
  | cons x xs ih =>
    rw [removeFirst]
    by_cases h0 : Compare k x.key = 0
    · rw [if_pos h0]
      exact List.sublist_cons_of_sublist x (List.Sublist.refl xs)
    · rw [if_neg h0]
      by_cases h1 : Compare k x.key = -1
      · rw [if_pos h1]
      · rw [if_neg h1]
        exact List.Sublist.cons₂ x ih

theorem so_removeFirst_length {k : K} {b : List (Item K V)} {x : Item K V}
    (hf : findInChain Compare k b = some x) :
    (removeFirst Compare k b).length + 1 = b.length := by
  induction b with
  | nil => simp [findInChain] at hf
  | cons y ys ih =>
    rw [findInChain] at hf
    rw [removeFirst]
    by_cases h0 : Compare k y.key = 0
    · rw [if_pos h0]
      simp
    · rw [if_neg h0] at hf
      by_cases h1 : Compare k y.key = -1
      · rw [if_pos h1] at hf
        exact Option.noConfusion hf
      · rw [if_neg h1] at hf
        rw [if_neg h0, if_neg h1]
        simp [ih hf]

theorem so_find_removeFirst_self (LC : LawfulCompare Hash Compare)
    {k : K} {b : List (Item K V)} {x : Item K V}
    (hs : b.Pairwise fun a c => Compare a.key c.key = -1)
    (hf : findInChain Compare k b = some x) :
    findInChain Compare k (removeFirst Compare k b) = none := by
  induction b with
  | nil => simp [findInChain] at hf
  | cons y ys ih =>
    obtain ⟨hhead, htail⟩ := List.pairwise_cons.mp hs
    rw [findInChain] at hf
    rw [removeFirst]
    by_cases h0 : Compare k y.key = 0
    · rw [if_pos h0]
      apply so_find_eq_none_of_all
      intro z hz
      rw [LC.congr_left k y.key z.key h0, hhead z hz]
      decide
    · rw [if_neg h0] at hf
      by_cases h1 : Compare k y.key = -1
      · rw [if_pos h1] at hf
        exact Option.noConfusion hf
      · rw [if_neg h1] at hf
        rw [if_neg h0, if_neg h1, findInChain, if_neg h0, if_neg h1]
        exact ih htail hf

theorem so_find_removeFirst_other (LC : LawfulCompare Hash Compare)
    {k2 k : K} (hk2 : Compare k2 k ≠ 0) {b : List (Item K V)}
    (hs : b.Pairwise fun a c => Compare a.key c.key = -1) :
    findInChain Compare k2 (removeFirst Compare k b) =
      findInChain Compare k2 b := by
  induction b with
  | nil => rfl
  | cons x xs ih =>
    obtain ⟨hhead, htail⟩ := List.pairwise_cons.mp hs
    rw [removeFirst]
    by_cases h0 : Compare k x.key = 0
    · rw [if_pos h0]
      by_cases g0 : Compare k2 x.key = 0
      · exfalso
        apply hk2
        rw [← lc_congr_right Hash Compare LC k2 h0] at g0
        exact g0
      · rw [findInChain, if_neg g0]
        by_cases g1 : Compare k2 x.key = -1
        · rw [if_pos g1]
          apply so_find_eq_none_of_all
          intro z hz
          have : Compare k2 z.key = -1 :=
            LC.lt_trans _ _ _ g1 (hhead z hz)
          rw [this]
          decide
        · rw [if_neg g1]
    · rw [if_neg h0]
      by_cases h1 : Compare k x.key = -1
      · rw [if_pos h1]
      · rw [if_neg h1]
        rw [findInChain, findInChain]
        by_cases g0 : Compare k2 x.key = 0
        · rw [if_pos g0, if_pos g0]
        · rw [if_neg g0, if_neg g0]
          by_cases g1 : Compare k2 x.key = -1
          · rw [if_pos g1, if_pos g1]
          · rw [if_neg g1, if_neg g1]
            exact ih htail

theorem so_find_complete (LC : LawfulCompare Hash Compare)
    {k : K} {b : List (Item K V)} {x : Item K V}
    (hs : b.Pairwise fun a c => Compare a.key c.key = -1)
    (hx : x ∈ b) (h0 : Compare k x.key = 0) :
    ∃ y, findInChain Compare k b = some y ∧ Compare k y.key = 0 := by
  induction b with
  | nil => cases hx
  | cons z zs ih =>
    obtain ⟨hhead, htail⟩ := List.pairwise_cons.mp hs
    by_cases g0 : Compare k z.key = 0
    · exact ⟨z, by rw [findInChain, if_pos g0], g0⟩
    · have hxz : x ∈ zs := by
        rcases List.mem_cons.mp hx with rfl | hx2
        · exact absurd h0 g0
        · exact hx2
      by_cases g1 : Compare k z.key = -1
      · exfalso
        have hlt : Compare k x.key = -1 :=
          LC.lt_trans _ _ _ g1 (hhead x hxz)
        rw [h0] at hlt
        exact absurd hlt (by decide)
      · rw [findInChain, if_neg g0, if_neg g1]
        exact ih htail hxz

theorem so_eachChain_append (f : K → V → Option E)
    (l1 l2 : List (Item K V)) :
    eachChain f (l1 ++ l2) =
      match eachChain f l1 with
      | some err => some err
      | none => eachChain f l2 := by
  induction l1 with
  | nil => rfl
  | cons x xs ih =>
    rw [List.cons_append, eachChain, eachChain]
    cases f x.key x.value with
    | none => exact ih
    | some err => rfl

theorem so_eachBuckets_eq_flatten (f : K → V → Option E)
    (bs : List (List (Item K V))) :
    eachBuckets f bs = eachChain f bs.flatten := by
  induction bs with
  | nil => rfl
  | cons b bs ih =>
    rw [eachBuckets, List.flatten_cons, so_eachChain_append, ih]

theorem so_eachChain_of_all_none (f : K → V → Option E)
    {l : List (Item K V)} (h : ∀ x ∈ l, f x.key x.value = none) :
    eachChain f l = none := by
  induction l with
  | nil => rfl
  | cons x xs ih =>
    rw [eachChain, h x (List.mem_cons_self _ _)]
    exact ih fun y hy => h y (List.mem_cons_of_mem _ hy)

theorem so_eachChain_abort (f : K → V → Option E)
    {pre post : List (Item K V)} {x : Item K V} {err : E}
    (hpre : ∀ y ∈ pre, f y.key y.value = none)
    (hx : f x.key x.value = some err) :
    eachChain f (pre ++ x :: post) = some err := by
  induction pre with
  | nil => rw [List.nil_append, eachChain, hx]
  | cons y ys ih =>
    rw [List.cons_append, eachChain, hpre y (List.mem_cons_self _ _)]
    exact ih fun z hz => hpre z (List.mem_cons_of_mem _ hz)

theorem so_keysChain_foldl (b : List (Item K V)) (acc : List K) :
    b.foldl (fun a x => a ++ [x.key]) acc = acc ++ b.map Item.key := by
  induction b generalizing acc with
  | nil => simp
  | cons x xs ih => simp [ih]

theorem so_keys_foldl (bs : List (List (Item K V))) (acc : List K) :
    bs.foldl (fun acc b => b.foldl (fun a x => a ++ [x.key]) acc) acc
      = acc ++ bs.flatten.map Item.key := by
  induction bs generalizing acc with
  | nil => simp
  | cons b bs ih =>
    rw [List.foldl_cons, so_keysChain_foldl, ih, List.flatten_cons,
      List.map_append, List.append_assoc]

theorem so_Keys_eq (d : Dictionary K V) :
    Keys d = d.buckets.flatten.map Item.key := by
  rw [Keys]
  simpa using so_keys_foldl d.buckets []

theorem so_Keys_length (d : Dictionary K V) :
    (Keys d).length = (d.buckets.map List.length).sum := by
  rw [so_Keys_eq, List.length_map, List.length_flatten]

theorem so_countP_le_one (LC : LawfulCompare Hash Compare) {k : K}
    {b : List (Item K V)}
    (hp : b.Pairwise fun a c => Compare a.key c.key = -1) :
    b.countP (fun x => Compare k x.key == 0) ≤ 1 := by
  induction b with
  | nil => simp
  | cons x xs ih =>
    obtain ⟨hhead, htail⟩ := List.pairwise_cons.mp hp
    by_cases h0 : Compare k x.key = 0
    · rw [List.countP_cons_of_pos _ _ (by simp [h0])]
      have hzero : xs.countP (fun x => Compare k x.key == 0) = 0 := by
        rw [List.countP_eq_zero]
        intro y hy
        simp only [beq_iff_eq]
        rw [LC.congr_left k x.key y.key h0, hhead y hy]
        decide
      omega
    · rw [List.countP_cons_of_neg _ _ (by simp [h0])]
      exact ih htail

end SortedChains

/-! ## Dictionary-level lemmas: sorted variant -/

section SortedDict

open Sorted

variable (Hash : K → Nat) (Compare : K → K → Int) (vnil : V)

/-- The internal invariant every reachable sorted dictionary satisfies:
every item sits in the chain its hash selects, and every chain is
strictly sorted by `Compare`. -/
def SInv (d : Dictionary K V) : Prop :=
  ∀ i b, d.buckets[i]? = some b →
    (∀ x ∈ b, Hash x.key % d.numBuckets = i) ∧
    b.Pairwise fun a c => Compare a.key c.key = -1

theorem so_New_setBuckets (n : Nat) :
    (New [SetBuckets n] : Dictionary K V) =
      ⟨n, List.replicate n []⟩ := rfl

theorem so_WF_New {n : Nat} (hn : 0 < n) :
    WF (New [SetBuckets n] : Dictionary K V) := by
  rw [so_New_setBuckets]
  exact ⟨by simp, hn⟩

theorem so_SInv_New (n : Nat) :
    SInv Hash Compare (New [SetBuckets n] : Dictionary K V) := by
  rw [so_New_setBuckets]
  intro i b hb
  simp only [List.getElem?_replicate] at hb
  split at hb
  · cases hb
    exact ⟨by simp, List.Pairwise.nil⟩
  · cases hb

theorem so_getBucket_WF {d : Dictionary K V} (hwf : WF d) (k : K) :
    ∃ b, d.buckets[Hash k % d.numBuckets]? = some b := by
  have hlt : Hash k % d.numBuckets < d.buckets.length := by
    rw [hwf.1]
    exact Nat.mod_lt _ hwf.2
  exact ⟨_, List.getElem?_eq_getElem hlt⟩

theorem so_Set_eq {d : Dictionary K V} {k : K} {v : V} {b : List (Item K V)}
    (hb : d.buckets[Hash k % d.numBuckets]? = some b) :
    Sorted.Set Hash Compare d k v = some
      { d with buckets := (d.buckets.set (Hash k % d.numBuckets) (setChain Compare k v b)) } := by
  simp only [Sorted.Set, hb]

theorem so_Set_shape {d d2 : Dictionary K V} {k : K} {v : V}
    (hs : Sorted.Set Hash Compare d k v = some d2) :
    ∃ b, d.buckets[Hash k % d.numBuckets]? = some b ∧
      d2 = { d with buckets := (d.buckets.set (Hash k % d.numBuckets) (setChain Compare k v b)) } := by
  cases hb : d.buckets[Hash k % d.numBuckets]? with
  | none =>
    rw [Sorted.Set] at hs
    simp only [hb] at hs
    exact Option.noConfusion hs
  | some b =>
    rw [so_Set_eq Hash Compare hb] at hs
    cases hs
    exact ⟨b, rfl, rfl⟩

theorem so_Delete_miss {d : Dictionary K V} {k : K} {b : List (Item K V)}
    (hb : d.buckets[Hash k % d.numBuckets]? = some b)
    (hf : findInChain Compare k b = none) :
    Delete Hash Compare vnil d k = some (vnil, false, d) := by
  simp only [Delete, hb, hf]

theorem so_Delete_hit {d : Dictionary K V} {k : K} {b : List (Item K V)}
    {x : Item K V}
    (hb : d.buckets[Hash k % d.numBuckets]? = some b)
    (hf : findInChain Compare k b = some x) :
    Delete Hash Compare vnil d k = some (x.value, true,
      { d with buckets := (d.buckets.set (Hash k % d.numBuckets) (removeFirst Compare k b)) }) := by
  simp only [Delete, hb, hf]

theorem so_Get_miss {d : Dictionary K V} {k : K} {b : List (Item K V)}
    (hb : d.buckets[Hash k % d.numBuckets]? = some b)
    (hf : findInChain Compare k b = none) :
    Get Hash Compare vnil d k = some (vnil, false) := by
  simp only [Get, getElement, getBucket, hb, hf]

theorem so_Get_hit {d : Dictionary K V} {k : K} {b : List (Item K V)}
    {x : Item K V}
    (hb : d.buckets[Hash k % d.numBuckets]? = some b)
    (hf : findInChain Compare k b = some x) :
    Get Hash Compare vnil d k = some (x.value, true) := by
  simp only [Get, getElement, getBucket, hb, hf]

theorem so_Set_some_of_WF {d : Dictionary K V} (hwf : WF d) (k : K) (v : V) :
    ∃ d2, Sorted.Set Hash Compare d k v = some d2 := by
  obtain ⟨b, hb⟩ := so_getBucket_WF Hash hwf k
  exact ⟨_, so_Set_eq Hash Compare hb⟩

theorem so_Get_some_of_WF {d : Dictionary K V} (hwf : WF d) (k : K) :
    ∃ r, Get Hash Compare vnil d k = some r := by
  obtain ⟨b, hb⟩ := so_getBucket_WF Hash hwf k
  cases hf : findInChain Compare k b with
  | none => exact ⟨_, so_Get_miss Hash Compare vnil hb hf⟩
  | some x => exact ⟨_, so_Get_hit Hash Compare vnil hb hf⟩

theorem so_Delete_some_of_WF {d : Dictionary K V} (hwf : WF d) (k : K) :
    ∃ r, Delete Hash Compare vnil d k = some r := by
  obtain ⟨b, hb⟩ := so_getBucket_WF Hash hwf k
  cases hf : findInChain Compare k b with
  | none => exact ⟨_, so_Delete_miss Hash Compare vnil hb hf⟩
  | some x => exact ⟨_, so_Delete_hit Hash Compare vnil hb hf⟩

theorem so_WF_Set {d d2 : Dictionary K V} {k : K} {v : V} (hwf : WF d)
    (hs : Sorted.Set Hash Compare d k v = some d2) : WF d2 := by
  obtain ⟨b, hb, rfl⟩ := so_Set_shape Hash Compare hs
  exact ⟨by simpa using hwf.1, hwf.2⟩

theorem so_WF_Delete {d : Dictionary K V} {k : K}
    {r : V × Bool × Dictionary K V}
    (hwf : WF d) (hdel : Delete Hash Compare vnil d k = some r) :
    WF r.2.2 := by
  cases hb : d.buckets[Hash k % d.numBuckets]? with
  | none =>
    rw [Delete] at hdel
    simp only [hb] at hdel
    exact Option.noConfusion hdel
  | some b =>
    cases hf : findInChain Compare k b with
    | none =>
      rw [so_Delete_miss Hash Compare vnil hb hf] at hdel
      cases hdel
      exact hwf
    | some x =>
      rw [so_Delete_hit Hash Compare vnil hb hf] at hdel
      cases hdel
      exact ⟨by simpa using hwf.1, hwf.2⟩

theorem so_SInv_Set (LC : LawfulCompare Hash Compare)
    {d d2 : Dictionary K V} {k : K} {v : V} (hinv : SInv Hash Compare d)
    (hs : Sorted.Set Hash Compare d k v = some d2) :
    SInv Hash Compare d2 := by
  obtain ⟨b, hb, rfl⟩ := so_Set_shape Hash Compare hs
  intro i c hc
  by_cases hidx : i = Hash k % d.numBuckets
  · subst hidx
    rw [List.getElem?_set_self', hb] at hc
    simp only [Option.map_eq_map, Option.map_some', Function.const_apply,
      Option.some_inj] at hc
    subst hc
    refine ⟨?_, so_setChain_sorted Hash Compare LC (hinv _ _ hb).2⟩
    intro x hx
    rcases so_setChain_mem Compare hx with rfl | hx2
    · rfl
    · exact (hinv _ _ hb).1 x hx2
  · rw [List.getElem?_set_ne fun h => hidx h.symm] at hc
    exact hinv i c hc

theorem so_SInv_Delete {d : Dictionary K V} {k : K}
    {r : V × Bool × Dictionary K V} (hinv : SInv Hash Compare d)
    (hdel : Delete Hash Compare vnil d k = some r) :
    SInv Hash Compare r.2.2 := by
  cases hb : d.buckets[Hash k % d.numBuckets]? with
  | none =>
    rw [Delete] at hdel
    simp only [hb] at hdel
    exact Option.noConfusion hdel
  | some b =>
    cases hf : findInChain Compare k b with
    | none =>
      rw [so_Delete_miss Hash Compare vnil hb hf] at hdel
      cases hdel
      exact hinv
    | some x =>
      rw [so_Delete_hit Hash Compare vnil hb hf] at hdel
      cases hdel
      intro i c hc
      by_cases hidx : i = Hash k % d.numBuckets
      · subst hidx
        rw [List.getElem?_set_self', hb] at hc
        simp only [Option.map_eq_map, Option.map_some', Function.const_apply,
          Option.some_inj] at hc
        subst hc
        have hsub := so_removeFirst_sublist Compare (k := k) b
        exact ⟨fun y hy => (hinv _ _ hb).1 y (hsub.subset hy),
          (hinv _ _ hb).2.sublist hsub⟩
      · rw [List.getElem?_set_ne fun h => hidx h.symm] at hc
        exact hinv i c hc

theorem so_run_preserves (LC : LawfulCompare Hash Compare) :
    ∀ (ops : List (Op K V)) (d : Dictionary K V), WF d →
      SInv Hash Compare d →
      ∃ d2, run Hash Compare vnil d ops = some d2 ∧ WF d2 ∧
        SInv Hash Compare d2 := by
  intro ops
  induction ops with
  | nil => exact fun d hwf hinv => ⟨d, rfl, hwf, hinv⟩
  | cons op ops ih =>
    intro d hwf hinv
    cases op with
    | get k =>
      obtain ⟨d2, hr, hwf2, hinv2⟩ := ih d hwf hinv
      exact ⟨d2, by rw [run, runOp]; exact hr, hwf2, hinv2⟩
    | set k v =>
      obtain ⟨d1, hs⟩ := so_Set_some_of_WF Hash Compare hwf k v
      obtain ⟨d2, hr, hwf2, hinv2⟩ := ih d1 (so_WF_Set Hash Compare hwf hs)
        (so_SInv_Set Hash Compare LC hinv hs)
      refine ⟨d2, ?_, hwf2, hinv2⟩
      rw [run, runOp, hs]
      exact hr
    | del k =>
      obtain ⟨r, hdel⟩ := so_Delete_some_of_WF Hash Compare vnil hwf k
      obtain ⟨d2, hr, hwf2, hinv2⟩ := ih r.2.2
        (so_WF_Delete Hash Compare vnil hwf hdel)
        (so_SInv_Delete Hash Compare vnil hinv hdel)
      refine ⟨d2, ?_, hwf2, hinv2⟩
      rw [run, runOp, hdel]
      exact hr

theorem so_Get_congr_bucket {d d2 : Dictionary K V} {k : K}
    (hnum : d2.numBuckets = d.numBuckets)
    (heq : d2.buckets[Hash k % d.numBuckets]? =
      d.buckets[Hash k % d.numBuckets]?) :
    Get Hash Compare vnil d2 k = Get Hash Compare vnil d k := by
  rw [Get, Get, getElement, getElement, getBucket, getBucket, hnum, heq]

theorem so_Get_Delete_other (LC : LawfulCompare Hash Compare)
    {k2 k : K} {d : Dictionary K V} {r : V × Bool × Dictionary K V}
    (hinv : SInv Hash Compare d) (hk2 : Compare k2 k ≠ 0)
    (hdel : Delete Hash Compare vnil d k = some r) :
    Get Hash Compare vnil r.2.2 k2 = Get Hash Compare vnil d k2 := by
  cases hb : d.buckets[Hash k % d.numBuckets]? with
  | none =>
    rw [Delete] at hdel
    simp only [hb] at hdel
    exact Option.noConfusion hdel
  | some b =>
    cases hf : findInChain Compare k b with
    | none =>
      rw [so_Delete_miss Hash Compare vnil hb hf] at hdel
      cases hdel
      rfl
    | some x =>
      rw [so_Delete_hit Hash Compare vnil hb hf] at hdel
      cases hdel
      by_cases hidx : Hash k2 % d.numBuckets = Hash k % d.numBuckets
      · have hb2 : (d.buckets.set (Hash k % d.numBuckets)
            (removeFirst Compare k b))[Hash k2 % d.numBuckets]? =
            some (removeFirst Compare k b) := by
          rw [hidx, List.getElem?_set_self', hb]
          rfl
        have hbk2 : d.buckets[Hash k2 % d.numBuckets]? = some b := by
          rw [hidx]
          exact hb
        have hfind := so_find_removeFirst_other Hash Compare LC hk2
          (hinv _ _ hb).2
        have hfind : findInChain Compare k2 (removeFirst Compare k b) =
            findInChain Compare k2 b := hfind
        cases hf2 : findInChain Compare k2 b with
        | none =>
          rw [so_Get_miss Hash Compare vnil hb2 (by rw [hfind]; exact hf2),
            so_Get_miss Hash Compare vnil hbk2 hf2]
        | some y =>
          rw [so_Get_hit Hash Compare vnil hb2 (by rw [hfind]; exact hf2),
            so_Get_hit Hash Compare vnil hbk2 hf2]
      · exact so_Get_congr_bucket Hash Compare vnil rfl
          (List.getElem?_set_ne fun h => hidx h.symm)

end SortedDict

/-! ## Concrete key structure used by the witnesses -/

/-- Witness hash function on `Fin 3`. -/
def fhash : Fin 3 → Nat := fun a => (a : Nat)

/-- Witness equality on `Fin 3`. -/
def feq : Fin 3 → Fin 3 → Bool := fun a b => a == b

/-- Witness three-way comparison on `Fin 3`. -/
def fcmp : Fin 3 → Fin 3 → Int :=
  fun a b => if (a : Nat) < (b : Nat) then -1 else if a = b then 0 else 1

theorem feq_lawful : LawfulEqual fhash feq :=
  ⟨by decide, by decide, by decide, by decide⟩

theorem fcmp_lawful : LawfulCompare fhash fcmp :=
  ⟨by decide, by decide, by decide, by decide, by decide, by decide⟩

/-! ## The claims -/

/-- C1 (Round-trip): for every dictionary constructed with bucket count
at least 1 (any well-formed dictionary), every key whose
equality/comparison is reflexive, and every value `v`, `Set(k, v)`
succeeds and a following `Get(k)` returns `(v, true)` — in both the
hash-gated and the sorted variant. -/
theorem set_get_round_trip
    (Hash : K → Nat) (Equal : K → K → Bool) (Compare : K → K → Int)
    (vnil : V) (k : K) (v : V)
    (d : HashGated.Dictionary K V) (hwf : HashGated.WF d)
    (hrefl : Equal k k = true)
    (e : Sorted.Dictionary K V) (hwfe : Sorted.WF e)
    (hreflc : Compare k k = 0) :
    (∃ d2, HashGated.Set Hash Equal d k v = some d2 ∧
      HashGated.Get Hash Equal vnil d2 k = some (v, true)) ∧
    (∃ e2, Sorted.Set Hash Compare e k v = some e2 ∧
      Sorted.Get Hash Compare vnil e2 k = some (v, true)) := by
  constructor
  · obtain ⟨d2, hs⟩ := hg_Set_some_of_WF Hash Equal hwf k v
    exact ⟨d2, hs, hg_Get_Set_self Hash Equal vnil hrefl hs⟩
  · obtain ⟨b, hb⟩ := so_getBucket_WF Hash hwfe k
    refine ⟨_, so_Set_eq Hash Compare hb, ?_⟩
    have hb2 : ((e.buckets.set (Hash k % e.numBuckets)
        (Sorted.setChain Compare k v b)))[Hash k % e.numBuckets]? =
        some (Sorted.setChain Compare k v b) := by
      rw [List.getElem?_set_self', hb]
      rfl
    exact so_Get_hit Hash Compare vnil hb2
      (so_find_setChain_self Compare hreflc)

/-- Witness for C1 at a concrete input. -/
theorem set_get_round_trip_witness :
    (∃ d2, HashGated.Set fhash feq
        (HashGated.New [HashGated.SetBuckets 2]) 1 (42 : Nat) = some d2 ∧
      HashGated.Get fhash feq 0 d2 1 = some (42, true)) ∧
    (∃ e2, Sorted.Set fhash fcmp
        (Sorted.New [Sorted.SetBuckets 2]) 1 (42 : Nat) = some e2 ∧
      Sorted.Get fhash fcmp 0 e2 1 = some (42, true)) :=
  set_get_round_trip fhash feq fcmp 0 1 42
    (HashGated.New [HashGated.SetBuckets 2]) (hg_WF_New (by decide)) (by decide)
    (Sorted.New [Sorted.SetBuckets 2]) (so_WF_New (by decide)) (by decide)

/-- C2 (Replacement): `Set(k, v1)` then `Set(k, v2)` makes `Get(k)`
return `(v2, true)`, and the entry count (the length of `Keys()`) after
the second `Set` equals the count after the first `Set` alone — in both
variants. -/
theorem set_set_replacement
    (Hash : K → Nat) (Equal : K → K → Bool) (Compare : K → K → Int)
    (vnil : V) (k : K) (v1 v2 : V)
    (d : HashGated.Dictionary K V) (hwf : HashGated.WF d)
    (hrefl : Equal k k = true)
    (e : Sorted.Dictionary K V) (hwfe : Sorted.WF e)
    (hreflc : Compare k k = 0) :
    (∃ d1 d2, HashGated.Set Hash Equal d k v1 = some d1 ∧
      HashGated.Set Hash Equal d1 k v2 = some d2 ∧
      HashGated.Get Hash Equal vnil d2 k = some (v2, true) ∧
      (HashGated.Keys d2).length = (HashGated.Keys d1).length) ∧
    (∃ e1 e2, Sorted.Set Hash Compare e k v1 = some e1 ∧
      Sorted.Set Hash Compare e1 k v2 = some e2 ∧
      Sorted.Get Hash Compare vnil e2 k = some (v2, true) ∧
      (Sorted.Keys e2).length = (Sorted.Keys e1).length) := by
  constructor
  · obtain ⟨b, hb⟩ := hg_getBucket_WF Hash hwf k
    have hs1 : HashGated.Set Hash Equal d k v1 = some
        { d with buckets := (d.buckets.set (Hash k % d.numBuckets) (HashGated.setChain Equal (Hash k) k v1 b)) } :=
      hg_Set_eq Hash Equal hb
    have hb1 : ({ d with buckets := (d.buckets.set (Hash k % d.numBuckets) (HashGated.setChain Equal (Hash k) k v1 b)) } : HashGated.Dictionary K V).buckets[Hash k % d.numBuckets]? =
        some (HashGated.setChain Equal (Hash k) k v1 b) := by
      show (d.buckets.set (Hash k % d.numBuckets) _)[Hash k % d.numBuckets]? = _
      rw [List.getElem?_set_self', hb]
      rfl
    have hs2 := hg_Set_eq Hash Equal hb1 (v := v2)
    refine ⟨_, _, hs1, hs2, hg_Get_Set_self Hash Equal vnil hrefl hs2, ?_⟩
    have hf1 : HashGated.findInChain Equal (Hash k) k
        (HashGated.setChain Equal (Hash k) k v1 b) = some ⟨k, Hash k, v1⟩ :=
      hg_find_setChain_self Equal hrefl
    rw [hg_Keys_length, hg_Keys_length]
    exact sum_map_length_set _ _ _ _ hb1
      (hg_setChain_length_of_found Equal hf1)
  · obtain ⟨b, hb⟩ := so_getBucket_WF Hash hwfe k
    have hs1 : Sorted.Set Hash Compare e k v1 = some
        { e with buckets := (e.buckets.set (Hash k % e.numBuckets) (Sorted.setChain Compare k v1 b)) } :=
      so_Set_eq Hash Compare hb
    have hb1 : ({ e with buckets := (e.buckets.set (Hash k % e.numBuckets) (Sorted.setChain Compare k v1 b)) } : Sorted.Dictionary K V).buckets[Hash k % e.numBuckets]? =
        some (Sorted.setChain Compare k v1 b) := by
      show (e.buckets.set (Hash k % e.numBuckets) _)[Hash k % e.numBuckets]? = _
      rw [List.getElem?_set_self', hb]
      rfl
    have hs2 := so_Set_eq Hash Compare hb1 (v := v2)
    have hf1 : Sorted.findInChain Compare k
        (Sorted.setChain Compare k v1 b) = some ⟨k, v1⟩ :=
      so_find_setChain_self Compare hreflc
    refine ⟨_, _, hs1, hs2, ?_, ?_⟩
    · have hb2 : ((e.buckets.set (Hash k % e.numBuckets) (Sorted.setChain Compare k v1 b)).set (Hash k % e.numBuckets) (Sorted.setChain Compare k v2 (Sorted.setChain Compare k v1 b)))[Hash k % e.numBuckets]? =
          some (Sorted.setChain Compare k v2 (Sorted.setChain Compare k v1 b)) := by
        rw [List.getElem?_set_self', hb1]
        rfl
      exact so_Get_hit Hash Compare vnil hb2
        (so_find_setChain_self Compare hreflc)
    · rw [so_Keys_length, so_Keys_length]
      exact sum_map_length_set _ _ _ _ hb1
        (so_setChain_length_found Compare hf1)

/-- Witness for C2 at a concrete input. -/
theorem set_set_replacement_witness :
    (∃ d1 d2, HashGated.Set fhash feq
        (HashGated.New [HashGated.SetBuckets 2]) 1 (7 : Nat) = some d1 ∧
      HashGated.Set fhash feq d1 1 42 = some d2 ∧
      HashGated.Get fhash feq 0 d2 1 = some (42, true) ∧
      (HashGated.Keys d2).length = (HashGated.Keys d1).length) ∧
    (∃ e1 e2, Sorted.Set fhash fcmp
        (Sorted.New [Sorted.SetBuckets 2]) 1 (7 : Nat) = some e1 ∧
      Sorted.Set fhash fcmp e1 1 42 = some e2 ∧
      Sorted.Get fhash fcmp 0 e2 1 = some (42, true) ∧
      (Sorted.Keys e2).length = (Sorted.Keys e1).length) :=
  set_set_replacement fhash feq fcmp 0 1 7 42
    (HashGated.New [HashGated.SetBuckets 2]) (hg_WF_New (by decide)) (by decide)
    (Sorted.New [Sorted.SetBuckets 2]) (so_WF_New (by decide)) (by decide)

/-- C3 (Delete contract and frame): if `k` is present, `Delete(k)`
returns the stored value with `found = true`, removes exactly that one
entry (the entry count drops by one), a following `Get(k)` reports not
found, and every other key still maps to its previous value; if `k` is
absent, `Delete(k)` returns `found = false` and no value (nil) — in
both variants, for dictionaries satisfying the reachable-state
invariant. -/
theorem delete_contract_frame
    (Hash : K → Nat) (Equal : K → K → Bool) (Compare : K → K → Int)
    (vnil : V) (k : K)
    (d : HashGated.Dictionary K V) (hwf : HashGated.WF d)
    (LE : LawfulEqual Hash Equal) (hinv : HGInv Hash Equal d)
    (e : Sorted.Dictionary K V) (hwfe : Sorted.WF e)
    (LC : LawfulCompare Hash Compare) (hinve : SInv Hash Compare e) :
    ((∀ v0, HashGated.Get Hash Equal vnil d k = some (v0, true) →
      ∃ d2, HashGated.Delete Hash Equal vnil d k = some (v0, true, d2) ∧
        HashGated.Get Hash Equal vnil d2 k = some (vnil, false) ∧
        (∀ k2, Equal k2 k = false →
          HashGated.Get Hash Equal vnil d2 k2 =
            HashGated.Get Hash Equal vnil d k2) ∧
        (HashGated.Keys d2).length + 1 = (HashGated.Keys d).length) ∧
     (HashGated.Get Hash Equal vnil d k = some (vnil, false) →
      HashGated.Delete Hash Equal vnil d k = some (vnil, false, d))) ∧
    ((∀ v0, Sorted.Get Hash Compare vnil e k = some (v0, true) →
      ∃ e2, Sorted.Delete Hash Compare vnil e k = some (v0, true, e2) ∧
        Sorted.Get Hash Compare vnil e2 k = some (vnil, false) ∧
        (∀ k2, Compare k2 k ≠ 0 →
          Sorted.Get Hash Compare vnil e2 k2 =
            Sorted.Get Hash Compare vnil e k2) ∧
        (Sorted.Keys e2).length + 1 = (Sorted.Keys e).length) ∧
     (Sorted.Get Hash Compare vnil e k = some (vnil, false) →
      Sorted.Delete Hash Compare vnil e k = some (vnil, false, e))) := by
  constructor
  · obtain ⟨b, hb⟩ := hg_getBucket_WF Hash hwf k
    constructor
    · intro v0 hget
      cases hf : HashGated.findInChain Equal (Hash k) k b with
      | none =>
        rw [hg_Get_miss Hash Equal vnil hb hf] at hget
        simp at hget
      | some x =>
        rw [hg_Get_hit Hash Equal vnil hb hf] at hget
        have hv : x.value = v0 := by
          simpa using hget
        have hdel := hg_Delete_hit Hash Equal vnil hb hf
        refine ⟨_, by rw [hdel, hv], ?_, ?_, ?_⟩
        · have hb2 : ((d.buckets.set (Hash k % d.numBuckets)
              (HashGated.removeFirst Equal (Hash k) k b)))[Hash k % d.numBuckets]? =
              some (HashGated.removeFirst Equal (Hash k) k b) := by
            rw [List.getElem?_set_self', hb]
            rfl
          exact hg_Get_miss Hash Equal vnil hb2
            (hg_find_removeFirst_self Hash Equal LE (hinv _ _ hb).2 hf)
        · intro k2 hk2
          exact hg_Get_Delete_other Hash Equal vnil LE hk2 hdel
        · rw [hg_Keys_length, hg_Keys_length]
          exact sum_map_length_set_lt _ _ _ _ hb
            (hg_removeFirst_length Equal hf)
    · intro hget
      cases hf : HashGated.findInChain Equal (Hash k) k b with
      | none => exact hg_Delete_miss Hash Equal vnil hb hf
      | some x =>
        rw [hg_Get_hit Hash Equal vnil hb hf] at hget
        simp at hget
  · obtain ⟨b, hb⟩ := so_getBucket_WF Hash hwfe k
    constructor
    · intro v0 hget
      cases hf : Sorted.findInChain Compare k b with
      | none =>
        rw [so_Get_miss Hash Compare vnil hb hf] at hget
        simp at hget
      | some x =>
        rw [so_Get_hit Hash Compare vnil hb hf] at hget
        have hv : x.value = v0 := by
          simpa using hget
        have hdel := so_Delete_hit Hash Compare vnil hb hf
        refine ⟨_, by rw [hdel, hv], ?_, ?_, ?_⟩
        · have hb2 : ((e.buckets.set (Hash k % e.numBuckets)
              (Sorted.removeFirst Compare k b)))[Hash k % e.numBuckets]? =
              some (Sorted.removeFirst Compare k b) := by
            rw [List.getElem?_set_self', hb]
            rfl
          exact so_Get_miss Hash Compare vnil hb2
            (so_find_removeFirst_self Hash Compare LC (hinve _ _ hb).2 hf)
        · intro k2 hk2
          exact so_Get_Delete_other Hash Compare vnil LC hinve hk2 hdel
        · rw [so_Keys_length, so_Keys_length]
          exact sum_map_length_set_lt _ _ _ _ hb
            (so_removeFirst_length Compare hf)
    · intro hget
      cases hf : Sorted.findInChain Compare k b with
      | none => exact so_Delete_miss Hash Compare vnil hb hf
      | some x =>
        rw [so_Get_hit Hash Compare vnil hb hf] at hget
        simp at hget

/-- Witness for C3 at a concrete input: a dictionary with key `1`
stored (value `7`) in bucket `1` of `2`. -/
theorem delete_contract_frame_witness :
    ((∀ v0, HashGated.Get fhash feq 0
        (⟨2, [[], [⟨1, 1, 7⟩]]⟩ : HashGated.Dictionary (Fin 3) Nat) 1 =
          some (v0, true) →
      ∃ d2, HashGated.Delete fhash feq 0
          (⟨2, [[], [⟨1, 1, 7⟩]]⟩ : HashGated.Dictionary (Fin 3) Nat) 1 =
            some (v0, true, d2) ∧
        HashGated.Get fhash feq 0 d2 1 = some (0, false) ∧
        (∀ k2, feq k2 1 = false →
          HashGated.Get fhash feq 0 d2 k2 =
            HashGated.Get fhash feq 0
              (⟨2, [[], [⟨1, 1, 7⟩]]⟩ : HashGated.Dictionary (Fin 3) Nat) k2) ∧
        (HashGated.Keys d2).length + 1 =
          (HashGated.Keys
            (⟨2, [[], [⟨1, 1, 7⟩]]⟩ : HashGated.Dictionary (Fin 3) Nat)).length) ∧
     (HashGated.Get fhash feq 0
        (⟨2, [[], [⟨1, 1, 7⟩]]⟩ : HashGated.Dictionary (Fin 3) Nat) 1 =
          some (0, false) →
      HashGated.Delete fhash feq 0
        (⟨2, [[], [⟨1, 1, 7⟩]]⟩ : HashGated.Dictionary (Fin 3) Nat) 1 =
          some (0, false, ⟨2, [[], [⟨1, 1, 7⟩]]⟩))) ∧
    ((∀ v0, Sorted.Get fhash fcmp 0
        (⟨2, [[], [⟨1, 7⟩]]⟩ : Sorted.Dictionary (Fin 3) Nat) 1 =
          some (v0, true) →
      ∃ e2, Sorted.Delete fhash fcmp 0
          (⟨2, [[], [⟨1, 7⟩]]⟩ : Sorted.Dictionary (Fin 3) Nat) 1 =
            some (v0, true, e2) ∧
        Sorted.Get fhash fcmp 0 e2 1 = some (0, false) ∧
        (∀ k2, fcmp k2 1 ≠ 0 →
          Sorted.Get fhash fcmp 0 e2 k2 =
            Sorted.Get fhash fcmp 0
              (⟨2, [[], [⟨1, 7⟩]]⟩ : Sorted.Dictionary (Fin 3) Nat) k2) ∧
        (Sorted.Keys e2).length + 1 =
          (Sorted.Keys
            (⟨2, [[], [⟨1, 7⟩]]⟩ : Sorted.Dictionary (Fin 3) Nat)).length) ∧
     (Sorted.Get fhash fcmp 0
        (⟨2, [[], [⟨1, 7⟩]]⟩ : Sorted.Dictionary (Fin 3) Nat) 1 =
          some (0, false) →
      Sorted.Delete fhash fcmp 0
        (⟨2, [[], [⟨1, 7⟩]]⟩ : Sorted.Dictionary (Fin 3) Nat) 1 =
          some (0, false, ⟨2, [[], [⟨1, 7⟩]]⟩))) :=
  delete_contract_frame fhash feq fcmp 0 1
    ⟨2, [[], [⟨1, 1, 7⟩]]⟩ ⟨by decide, by decide⟩ feq_lawful
    (hg_HGInv_Set fhash feq feq_lawful (k := 1) (v := 7)
      (hg_HGInv_New fhash feq 2) (by decide))
    ⟨2, [[], [⟨1, 7⟩]]⟩ ⟨by decide, by decide⟩ fcmp_lawful
    (so_SInv_Set fhash fcmp fcmp_lawful (k := 1) (v := 7)
      (so_SInv_New fhash fcmp 2) (by decide))

/-- C4 counterexample: constructing with `SetBuckets 0` is **not**
rejected — `New` returns a dictionary with zero buckets — and the very
next `Set`, `Get` or `Delete` hits the unguarded `hash % numBuckets`
reduction with divisor 0, i.e. the Go division-by-zero panic (modelled
as `none`).  So the claim "rejected or defended against" fails. -/
theorem zero_buckets_cex :
    (HashGated.New [HashGated.SetBuckets 0] :
        HashGated.Dictionary (Fin 3) Nat) = ⟨0, []⟩ ∧
    HashGated.Set fhash feq
      (HashGated.New [HashGated.SetBuckets 0]) 1 (7 : Nat) = none ∧
    HashGated.Get fhash feq 0
      (HashGated.New [HashGated.SetBuckets 0]) 1 = none ∧
    HashGated.Delete fhash feq 0
      (HashGated.New [HashGated.SetBuckets 0]) 1 = none := by
  refine ⟨rfl, ?_, ?_, ?_⟩ <;> decide

/-- C4 (amended): construction with bucket count 0 is neither rejected
nor defended against: `New(SetBuckets(0))` yields a dictionary with
zero buckets and an empty bucket array, and every subsequent `Set`,
`Get`, or `Delete` performs the hash-mod-bucketCount reduction with
divisor 0, a Go runtime panic (modelled as `none`). -/
theorem zero_buckets_not_defended
    (Hash : K → Nat) (Equal : K → K → Bool) (vnil : V) (k : K) (v : V) :
    (HashGated.New [HashGated.SetBuckets 0] :
        HashGated.Dictionary K V) = ⟨0, []⟩ ∧
    HashGated.Set Hash Equal
      (HashGated.New [HashGated.SetBuckets 0]) k v = none ∧
    HashGated.Get Hash Equal vnil
      (HashGated.New [HashGated.SetBuckets 0]) k = none ∧
    HashGated.Delete Hash Equal vnil
      (HashGated.New [HashGated.SetBuckets 0]) k = none := by
  refine ⟨rfl, ?_, ?_, ?_⟩
  · simp [HashGated.Set, hg_New_setBuckets]
  · simp [HashGated.Get, HashGated.getElement, HashGated.getBucket,
      hg_New_setBuckets]
  · simp [HashGated.Delete, hg_New_setBuckets]

/-- C5 (Each: iteration order and abort propagation): `Each` scans the
entries exactly in bucket order 0..N-1, within each bucket in chain
order — i.e. in the order of the flattened bucket array: if the visitor
returns nil everywhere, `Each` returns nil; if the visitor returns nil
on every entry before some entry `x` and a non-nil error on `x`,
iteration halts at `x` and `Each` returns exactly that error.  Both
variants. -/
theorem each_order_and_abort :
    (∀ (d : HashGated.Dictionary K V) (f : K → V → Option E),
      (∀ x ∈ d.buckets.flatten, f x.key x.value = none) →
      HashGated.Each d f = none) ∧
    (∀ (d : HashGated.Dictionary K V) (f : K → V → Option E)
      (pre post : List (HashGated.Item K V)) (x : HashGated.Item K V)
      (err : E),
      d.buckets.flatten = pre ++ x :: post →
      (∀ y ∈ pre, f y.key y.value = none) →
      f x.key x.value = some err →
      HashGated.Each d f = some err) ∧
    (∀ (d : Sorted.Dictionary K V) (f : K → V → Option E),
      (∀ x ∈ d.buckets.flatten, f x.key x.value = none) →
      Sorted.Each d f = none) ∧
    (∀ (d : Sorted.Dictionary K V) (f : K → V → Option E)
      (pre post : List (Sorted.Item K V)) (x : Sorted.Item K V)
      (err : E),
      d.buckets.flatten = pre ++ x :: post →
      (∀ y ∈ pre, f y.key y.value = none) →
      f x.key x.value = some err →
      Sorted.Each d f = some err) := by
  refine ⟨?_, ?_, ?_, ?_⟩
  · intro d f hall
    rw [HashGated.Each, hg_eachBuckets_eq_flatten]
    exact hg_eachChain_of_all_none f hall
  · intro d f pre post x err hsplit hpre hx
    rw [HashGated.Each, hg_eachBuckets_eq_flatten, hsplit]
    exact hg_eachChain_abort f hpre hx
  · intro d f hall
    rw [Sorted.Each, so_eachBuckets_eq_flatten]
    exact so_eachChain_of_all_none f hall
  · intro d f pre post x err hsplit hpre hx
    rw [Sorted.Each, so_eachBuckets_eq_flatten, hsplit]
    exact so_eachChain_abort f hpre hx

/-- Witness for C5 at a concrete input: the abort case on a two-bucket
dictionary whose single entry makes the visitor stop. -/
theorem each_order_and_abort_witness :
    HashGated.Each
      (⟨2, [[], [⟨1, 1, 7⟩]]⟩ : HashGated.Dictionary (Fin 3) Nat)
      (fun _ v => if v = 7 then some (0 : Nat) else none) = some 0 :=
  (each_order_and_abort (K := Fin 3) (V := Nat) (E := Nat)).2.1
    ⟨2, [[], [⟨1, 1, 7⟩]]⟩ _ [] [] ⟨1, 1, 7⟩ 0 rfl (by simp) (by decide)

/-- C6 (Keys materialization): `Keys` returns exactly the stored keys
in `Each`'s bucket/chain order (the flattened bucket array), its length
is the total entry count, and that count tracks net insertions minus
deletions: an inserting `Set` raises it by one, a replacing `Set`
keeps it, a successful `Delete` lowers it by one, and a missed
`Delete` keeps it.  Both variants. -/
theorem keys_materialization
    (Hash : K → Nat) (Equal : K → K → Bool) (Compare : K → K → Int)
    (vnil : V) :
    (∀ d : HashGated.Dictionary K V,
      HashGated.Keys d = d.buckets.flatten.map HashGated.Item.key ∧
      (HashGated.Keys d).length = (d.buckets.map List.length).sum) ∧
    (∀ (d d2 : HashGated.Dictionary K V) (k : K) (v : V),
      HashGated.Set Hash Equal d k v = some d2 →
      HashGated.getElement Hash Equal d k = some none →
      (HashGated.Keys d2).length = (HashGated.Keys d).length + 1) ∧
    (∀ (d d2 : HashGated.Dictionary K V) (k : K) (v : V)
      (x : HashGated.Item K V),
      HashGated.Set Hash Equal d k v = some d2 →
      HashGated.getElement Hash Equal d k = some (some x) →
      (HashGated.Keys d2).length = (HashGated.Keys d).length) ∧
    (∀ (d d2 : HashGated.Dictionary K V) (k : K) (v0 : V),
      HashGated.Delete Hash Equal vnil d k = some (v0, true, d2) →
      (HashGated.Keys d2).length + 1 = (HashGated.Keys d).length) ∧
    (∀ (d d2 : HashGated.Dictionary K V) (k : K) (v0 : V),
      HashGated.Delete Hash Equal vnil d k = some (v0, false, d2) →
      d2 = d ∧ (HashGated.Keys d2).length = (HashGated.Keys d).length) ∧
    (∀ e : Sorted.Dictionary K V,
      Sorted.Keys e = e.buckets.flatten.map Sorted.Item.key ∧
      (Sorted.Keys e).length = (e.buckets.map List.length).sum) ∧
    (∀ (e e2 : Sorted.Dictionary K V) (k : K) (v : V),
      Sorted.Set Hash Compare e k v = some e2 →
      Sorted.getElement Hash Compare e k = some none →
      (Sorted.Keys e2).length = (Sorted.Keys e).length + 1) ∧
    (∀ (e e2 : Sorted.Dictionary K V) (k : K) (v : V)
      (x : Sorted.Item K V),
      Sorted.Set Hash Compare e k v = some e2 →
      Sorted.getElement Hash Compare e k = some (some x) →
      (Sorted.Keys e2).length = (Sorted.Keys e).length) ∧
    (∀ (e e2 : Sorted.Dictionary K V) (k : K) (v0 : V),
      Sorted.Delete Hash Compare vnil e k = some (v0, true, e2) →
      (Sorted.Keys e2).length + 1 = (Sorted.Keys e).length) ∧
    (∀ (e e2 : Sorted.Dictionary K V) (k : K) (v0 : V),
      Sorted.Delete Hash Compare vnil e k = some (v0, false, e2) →
      e2 = e ∧ (Sorted.Keys e2).length = (Sorted.Keys e).length) := by
  have hgGetEl : ∀ (d : HashGated.Dictionary K V) (k : K)
      (b : List (HashGated.Item K V)) (o : Option (HashGated.Item K V)),
      d.buckets[Hash k % d.numBuckets]? = some b →
      HashGated.getElement Hash Equal d k = some o →
      HashGated.findInChain Equal (Hash k) k b = o := by
    intro d k b o hb hge
    rw [HashGated.getElement, HashGated.getBucket] at hge
    simp only [hb] at hge
    exact Option.some_inj.mp hge
  have soGetEl : ∀ (e : Sorted.Dictionary K V) (k : K)
      (b : List (Sorted.Item K V)) (o : Option (Sorted.Item K V)),
      e.buckets[Hash k % e.numBuckets]? = some b →
      Sorted.getElement Hash Compare e k = some o →
      Sorted.findInChain Compare k b = o := by
    intro e k b o hb hge
    rw [Sorted.getElement, Sorted.getBucket] at hge
    simp only [hb] at hge
    exact Option.some_inj.mp hge
  refine ⟨fun d => ⟨hg_Keys_eq d, hg_Keys_length d⟩, ?_, ?_, ?_, ?_,
    fun e => ⟨so_Keys_eq e, so_Keys_length e⟩, ?_, ?_, ?_, ?_⟩
  · intro d d2 k v hs hge
    obtain ⟨b, hb, rfl⟩ := hg_Set_shape Hash Equal hs
    have hf := hgGetEl d k b none hb hge
    rw [hg_Keys_length, hg_Keys_length]
    exact sum_map_length_set_gt _ _ _ _ hb
      (hg_setChain_length_of_absent Equal hf)
  · intro d d2 k v x hs hge
    obtain ⟨b, hb, rfl⟩ := hg_Set_shape Hash Equal hs
    have hf := hgGetEl d k b (some x) hb hge
    rw [hg_Keys_length, hg_Keys_length]
    exact sum_map_length_set _ _ _ _ hb
      (hg_setChain_length_of_found Equal hf)
  · intro d d2 k v0 hdel
    cases hb : d.buckets[Hash k % d.numBuckets]? with
    | none =>
      rw [HashGated.Delete] at hdel
      simp only [hb] at hdel
      exact Option.noConfusion hdel
    | some b =>
      cases hf : HashGated.findInChain Equal (Hash k) k b with
      | none =>
        rw [hg_Delete_miss Hash Equal vnil hb hf] at hdel
        simp at hdel
      | some x =>
        rw [hg_Delete_hit Hash Equal vnil hb hf] at hdel
        simp only [Option.some_inj, Prod.mk.injEq, true_and] at hdel
        obtain ⟨-, hd2⟩ := hdel
        subst hd2
        rw [hg_Keys_length, hg_Keys_length]
        exact sum_map_length_set_lt _ _ _ _ hb
          (hg_removeFirst_length Equal hf)
  · intro d d2 k v0 hdel
    cases hb : d.buckets[Hash k % d.numBuckets]? with
    | none =>
      rw [HashGated.Delete] at hdel
      simp only [hb] at hdel
      exact Option.noConfusion hdel
    | some b =>
      cases hf : HashGated.findInChain Equal (Hash k) k b with
      | none =>
        rw [hg_Delete_miss Hash Equal vnil hb hf] at hdel
        simp only [Option.some_inj, Prod.mk.injEq, true_and] at hdel
        obtain ⟨-, hd2⟩ := hdel
        subst hd2
        exact ⟨rfl, rfl⟩
      | some x =>
        rw [hg_Delete_hit Hash Equal vnil hb hf] at hdel
        simp at hdel
  · intro e e2 k v hs hge
    obtain ⟨b, hb, rfl⟩ := so_Set_shape Hash Compare hs
    have hf := soGetEl e k b none hb hge
    rw [so_Keys_length, so_Keys_length]
    exact sum_map_length_set_gt _ _ _ _ hb
      (so_setChain_length_absent Compare hf)
  · intro e e2 k v x hs hge
    obtain ⟨b, hb, rfl⟩ := so_Set_shape Hash Compare hs
    have hf := soGetEl e k b (some x) hb hge
    rw [so_Keys_length, so_Keys_length]
    exact sum_map_length_set _ _ _ _ hb
      (so_setChain_length_found Compare hf)
  · intro e e2 k v0 hdel
    cases hb : e.buckets[Hash k % e.numBuckets]? with
    | none =>
      rw [Sorted.Delete] at hdel
      simp only [hb] at hdel
      exact Option.noConfusion hdel
    | some b =>
      cases hf : Sorted.findInChain Compare k b with
      | none =>
        rw [so_Delete_miss Hash Compare vnil hb hf] at hdel
        simp at hdel
      | some x =>
        rw [so_Delete_hit Hash Compare vnil hb hf] at hdel
        simp only [Option.some_inj, Prod.mk.injEq, true_and] at hdel
        obtain ⟨-, hd2⟩ := hdel
        subst hd2
        rw [so_Keys_length, so_Keys_length]
        exact sum_map_length_set_lt _ _ _ _ hb
          (so_removeFirst_length Compare hf)
  · intro e e2 k v0 hdel
    cases hb : e.buckets[Hash k % e.numBuckets]? with
    | none =>
      rw [Sorted.Delete] at hdel
      simp only [hb] at hdel
      exact Option.noConfusion hdel
    | some b =>
      cases hf : Sorted.findInChain Compare k b with
      | none =>
        rw [so_Delete_miss Hash Compare vnil hb hf] at hdel
        simp only [Option.some_inj, Prod.mk.injEq, true_and] at hdel
        obtain ⟨-, hd2⟩ := hdel
        subst hd2
        exact ⟨rfl, rfl⟩
      | some x =>
        rw [so_Delete_hit Hash Compare vnil hb hf] at hdel
        simp at hdel

/-- Witness for C6 at a concrete input. -/
theorem keys_materialization_witness :
    HashGated.Keys (⟨2, [[], [⟨1, 1, 7⟩]]⟩ :
      HashGated.Dictionary (Fin 3) Nat) = [1] ∧
    (HashGated.Keys (⟨2, [[], [⟨1, 1, 7⟩]]⟩ :
      HashGated.Dictionary (Fin 3) Nat)).length =
      ((⟨2, [[], [⟨1, 1, 7⟩]]⟩ :
        HashGated.Dictionary (Fin 3) Nat).buckets.map List.length).sum := by
  constructor
  · rw [((keys_materialization fhash feq fcmp 0 (K := Fin 3)
      (V := Nat)).1 ⟨2, [[], [⟨1, 1, 7⟩]]⟩).1]
    decide
  · exact ((keys_materialization fhash feq fcmp 0 (K := Fin 3)
      (V := Nat)).1 ⟨2, [[], [⟨1, 1, 7⟩]]⟩).2

/-- C7 (Bucket-count invariance): for any two positive bucket counts
`m` and `n` and any sequence of `Set`/`Get`/`Delete` operations over
keys whose `Equal` is a hash-compatible equivalence, the sequence runs
to completion on both dictionaries and the two final dictionaries give
the same `Get` answer for every key. -/
theorem bucket_count_invariance
    (Hash : K → Nat) (Equal : K → K → Bool) (vnil : V)
    (LE : LawfulEqual Hash Equal) (m n : Nat) (hm : 0 < m) (hn : 0 < n)
    (ops : List (Op K V)) :
    (∃ e1, HashGated.run Hash Equal vnil
      (HashGated.New [HashGated.SetBuckets m]) ops = some e1) ∧
    (∀ e1 e2,
      HashGated.run Hash Equal vnil
        (HashGated.New [HashGated.SetBuckets m]) ops = some e1 →
      HashGated.run Hash Equal vnil
        (HashGated.New [HashGated.SetBuckets n]) ops = some e2 →
      ∀ k, HashGated.Get Hash Equal vnil e1 k =
        HashGated.Get Hash Equal vnil e2 k) := by
  constructor
  · obtain ⟨e1, hr, -, -⟩ := hg_run_preserves Hash Equal vnil LE ops _
      (hg_WF_New hm) (hg_HGInv_New Hash Equal m)
    exact ⟨e1, hr⟩
  · intro e1 e2 hr1 hr2 k
    exact hg_bisim Hash Equal vnil LE ops _ _ (hg_WF_New hm) (hg_WF_New hn)
      (hg_HGInv_New Hash Equal m) (hg_HGInv_New Hash Equal n)
      (fun k2 => by
        rw [hg_Get_New Hash Equal vnil hm, hg_Get_New Hash Equal vnil hn])
      e1 e2 hr1 hr2 k

/-- Witness for C7 at a concrete input: a three-operation sequence on
2 versus 3 buckets. -/
theorem bucket_count_invariance_witness :
    (∃ e1, HashGated.run fhash feq 0
      (HashGated.New [HashGated.SetBuckets 2])
      [Op.set 1 (7 : Nat), Op.del 1, Op.set 2 9] = some e1) ∧
    (∀ e1 e2,
      HashGated.run fhash feq 0
        (HashGated.New [HashGated.SetBuckets 2])
        [Op.set 1 (7 : Nat), Op.del 1, Op.set 2 9] = some e1 →
      HashGated.run fhash feq 0
        (HashGated.New [HashGated.SetBuckets 3])
        [Op.set 1 (7 : Nat), Op.del 1, Op.set 2 9] = some e2 →
      ∀ k, HashGated.Get fhash feq 0 e1 k =
        HashGated.Get fhash feq 0 e2 k) :=
  bucket_count_invariance fhash feq 0 feq_lawful 2 3 (by decide) (by decide)
    [Op.set 1 7, Op.del 1, Op.set 2 9]

/-- C8 (Placement invariant): in every reachable dictionary (any
`Set`/`Get`/`Delete` sequence from a fresh dictionary), a key occurs
only in the chain selected by `hash(key) mod numBuckets` — every other
chain holds no entry equal to it — and occurs at most once in that
chain.  Both variants. -/
theorem placement_invariant
    (Hash : K → Nat) (Equal : K → K → Bool) (Compare : K → K → Int)
    (vnil : V) (LE : LawfulEqual Hash Equal)
    (LC : LawfulCompare Hash Compare) (n : Nat) (hn : 0 < n)
    (ops : List (Op K V)) :
    (∀ d, HashGated.run Hash Equal vnil
        (HashGated.New [HashGated.SetBuckets n]) ops = some d →
      ∀ k i b, d.buckets[i]? = some b →
        (i ≠ Hash k % d.numBuckets → ∀ x ∈ b, Equal k x.key = false) ∧
        b.countP (fun x => Equal k x.key) ≤ 1) ∧
    (∀ e, Sorted.run Hash Compare vnil
        (Sorted.New [Sorted.SetBuckets n]) ops = some e →
      ∀ k i b, e.buckets[i]? = some b →
        (i ≠ Hash k % e.numBuckets → ∀ x ∈ b, Compare k x.key ≠ 0) ∧
        b.countP (fun x => Compare k x.key == 0) ≤ 1) := by
  constructor
  · intro d hr k i b hb
    obtain ⟨d2, hr2, -, hinv⟩ := hg_run_preserves Hash Equal vnil LE ops _
      (hg_WF_New hn) (hg_HGInv_New Hash Equal n)
    rw [hr] at hr2
    cases hr2
    constructor
    · intro hne x hx
      cases hkx : Equal k x.key with
      | false => rfl
      | true =>
        exfalso
        apply hne
        rw [LE.hash_congr k x.key hkx]
        exact ((hinv _ _ hb).1 x hx).2.symm
    · exact hg_countP_le_one Hash Equal LE (hinv _ _ hb).2
  · intro e hr k i b hb
    obtain ⟨e2, hr2, -, hinv⟩ := so_run_preserves Hash Compare vnil LC ops _
      (so_WF_New hn) (so_SInv_New Hash Compare n)
    rw [hr] at hr2
    cases hr2
    constructor
    · intro hne x hx h0
      apply hne
      rw [LC.hash_congr k x.key h0]
      exact ((hinv _ _ hb).1 x hx).symm
    · exact so_countP_le_one Hash Compare LC (hinv _ _ hb).2

/-- Witness for C8 at a concrete input: after `Set 1`, `Set 2`,
`Delete 2` on 2 buckets, bucket 0 holds no entry equal to key 1. -/
theorem placement_invariant_witness :
    ((0 : Nat) ≠ fhash 1 %
        (⟨2, [[], [⟨1, 1, 7⟩]]⟩ :
          HashGated.Dictionary (Fin 3) Nat).numBuckets →
      ∀ x ∈ ([] : List (HashGated.Item (Fin 3) Nat)),
        feq 1 x.key = false) ∧
    ([] : List (HashGated.Item (Fin 3) Nat)).countP
      (fun x => feq 1 x.key) ≤ 1 :=
  (placement_invariant fhash feq fcmp 0 feq_lawful fcmp_lawful 2
    (by decide) [Op.set 1 7, Op.set 2 9, Op.del 2]).1
    ⟨2, [[], [⟨1, 1, 7⟩]]⟩ (by decide) 1 0 [] (by decide)

/-- C9 (Sorted-chain invariant and early-exit correctness): in every
reachable sorted-variant dictionary each chain is strictly increasing
under `Compare`, and the early-exit lookup scan never misses a present
key: any entry comparing equal to the probe key makes `Get` report
found. -/
theorem sorted_chain_early_exit
    (Hash : K → Nat) (Compare : K → K → Int) (vnil : V)
    (LC : LawfulCompare Hash Compare) (n : Nat) (hn : 0 < n)
    (ops : List (Op K V)) (e : Sorted.Dictionary K V)
    (hr : Sorted.run Hash Compare vnil
      (Sorted.New [Sorted.SetBuckets n]) ops = some e) :
    (∀ (i : Nat) (b : List (Sorted.Item K V)), e.buckets[i]? = some b →
      b.Pairwise fun x y => Compare x.key y.key = -1) ∧
    (∀ (k : K) (i : Nat) (b : List (Sorted.Item K V))
      (x : Sorted.Item K V), e.buckets[i]? = some b → x ∈ b →
      Compare k x.key = 0 →
      ∃ v, Sorted.Get Hash Compare vnil e k = some (v, true)) := by
  obtain ⟨e2, hr2, hwf, hinv⟩ := so_run_preserves Hash Compare vnil LC ops _
    (so_WF_New hn) (so_SInv_New Hash Compare n)
  rw [hr] at hr2
  cases hr2
  constructor
  · exact fun i b hb => (hinv _ _ hb).2
  · intro k i b x hb hx h0
    have hbk : e.buckets[Hash k % e.numBuckets]? = some b := by
      rw [LC.hash_congr k x.key h0, (hinv _ _ hb).1 x hx]
      exact hb
    obtain ⟨y, hy, -⟩ :=
      so_find_complete Hash Compare LC (hinv _ _ hb).2 hx h0
    exact ⟨y.value, so_Get_hit Hash Compare vnil hbk hy⟩

/-- Witness for C9 at a concrete input. -/
theorem sorted_chain_early_exit_witness :
    ∃ v, Sorted.Get fhash fcmp 0
      (⟨2, [[], [⟨1, 7⟩]]⟩ : Sorted.Dictionary (Fin 3) Nat) 1 =
        some (v, true) :=
  (sorted_chain_early_exit fhash fcmp 0 fcmp_lawful 2 (by decide)
    [Op.set 1 7] ⟨2, [[], [⟨1, 7⟩]]⟩ (by decide)).2
    1 1 [⟨1, 7⟩] ⟨1, 7⟩ (by decide) (by decide) (by decide)

/-- C10 (Nil values at the public interface): when `Get` or `Delete`
misses, the returned value is the nil interface value; a key stored
with value nil is still reported present (`Get` returns
`(nil, true)`), so the boolean, not the value, distinguishes absence
from a stored nil. -/
theorem nil_value_semantics
    (Hash : K → Nat) (Equal : K → K → Bool) (vnil : V) (k : K)
    (d : HashGated.Dictionary K V) (hwf : HashGated.WF d)
    (hrefl : Equal k k = true) :
    (HashGated.getElement Hash Equal d k = some none →
      HashGated.Get Hash Equal vnil d k = some (vnil, false) ∧
      HashGated.Delete Hash Equal vnil d k = some (vnil, false, d)) ∧
    (∃ d2, HashGated.Set Hash Equal d k vnil = some d2 ∧
      HashGated.Get Hash Equal vnil d2 k = some (vnil, true)) := by
  constructor
  · intro hge
    obtain ⟨b, hb⟩ := hg_getBucket_WF Hash hwf k
    have hf : HashGated.findInChain Equal (Hash k) k b = none := by
      rw [HashGated.getElement, HashGated.getBucket] at hge
      simp only [hb] at hge
      exact Option.some_inj.mp hge
    exact ⟨hg_Get_miss Hash Equal vnil hb hf,
      hg_Delete_miss Hash Equal vnil hb hf⟩
  · obtain ⟨d2, hs⟩ := hg_Set_some_of_WF Hash Equal hwf k vnil
    exact ⟨d2, hs, hg_Get_Set_self Hash Equal vnil hrefl hs⟩

/-- Witness for C10 at a concrete input. -/
theorem nil_value_semantics_witness :
    (HashGated.getElement fhash feq
        (HashGated.New [HashGated.SetBuckets 2] :
          HashGated.Dictionary (Fin 3) Nat) 1 = some none →
      HashGated.Get fhash feq 0
        (HashGated.New [HashGated.SetBuckets 2]) 1 = some (0, false) ∧
      HashGated.Delete fhash feq 0
        (HashGated.New [HashGated.SetBuckets 2]) 1 =
          some (0, false, HashGated.New [HashGated.SetBuckets 2])) ∧
    (∃ d2, HashGated.Set fhash feq
        (HashGated.New [HashGated.SetBuckets 2]) 1 (0 : Nat) = some d2 ∧
      HashGated.Get fhash feq 0 d2 1 = some (0, true)) :=
  nil_value_semantics fhash feq 0 1
    (HashGated.New [HashGated.SetBuckets 2]) (hg_WF_New (by decide))
    (by decide)

end Bakins
